import Mathlib

/-!
# Verification of the `DrupalJsonApiEntity` class (`src/libs/plugin-entity.js`)

A shallow embedding of the JavaScript class `DrupalJsonApiEntity` together
with proofs about it.  JavaScript values are embedded as the inductive type
`JVal` (including `undefined`), JS objects as ordered association lists, and
code that can throw a `TypeError` as `Except String`.  All definitions are
translated from the source file; definitions whose doc comment says so
follow the specification's wording instead (for refinement comparisons).
-/

set_option maxHeartbeats 1000000

/-- Embedding of a JavaScript value.  `undefined` is JavaScript `undefined`
(e.g. the result of reading an absent property), `obj` is an ordered list of
key/value pairs (JS objects preserve insertion order). -/
inductive JVal where
  | undefined : JVal
  | null : JVal
  | bool : Bool → JVal
  | num : Int → JVal
  | str : String → JVal
  | arr : List JVal → JVal
  | obj : List (String × JVal) → JVal

/-- JavaScript truthiness: `undefined`, `null`, `false`, `0` and `""` are
falsy, everything else (including empty arrays and objects) is truthy. -/
def JVal.truthy : JVal → Bool
  | .undefined => false
  | .null => false
  | .bool b => b
  | .num n => !(n = 0)
  | .str s => !(s = "")
  | .arr _ => true
  | .obj _ => true

/-- `typeof v === 'object'` — true for objects, arrays and `null`. -/
def JVal.typeofObject : JVal → Bool
  | .null => true
  | .arr _ => true
  | .obj _ => true
  | _ => false

/-- `Array.isArray(v)`. -/
def JVal.isArr : JVal → Bool
  | .arr _ => true
  | _ => false

/-- First-match lookup in an association list (JS objects cannot hold
duplicate keys; constructions below never introduce duplicates). -/
def jsGetL (fs : List (String × JVal)) (k : String) : JVal :=
  match fs with
  | [] => .undefined
  | (k1, v) :: rest => if k1 = k then v else jsGetL rest k

/-- Property read `v[k]` on a value that is not `null`/`undefined`: objects
yield the stored member; primitives and arrays yield `undefined` for the
(non-index) property names used by the source. -/
def JVal.get (v : JVal) (k : String) : JVal :=
  match v with
  | .obj fs => jsGetL fs k
  | _ => .undefined

/-- Property read `v[k]` as it behaves in JavaScript: reading a property of
`null` or `undefined` throws a `TypeError`. -/
def jsIndexE (v : JVal) (k : String) : Except String JVal :=
  match v with
  | .undefined => .error "TypeError: cannot read properties of undefined"
  | .null => .error "TypeError: cannot read properties of null"
  | _ => .ok (v.get k)

/-- `Object.assign(target, ...)` for a single key on an association list:
an existing key keeps its position and receives the new value, a new key is
appended. -/
def jsSetL (fs : List (String × JVal)) (k : String) (v : JVal) :
    List (String × JVal) :=
  if fs.any (fun p => p.1 = k) then
    fs.map (fun p => if p.1 = k then (k, v) else p)
  else fs ++ [(k, v)]

/-- Write `target[k] = v` on an object value; other shapes are returned
unchanged (the source only reaches this with object targets). -/
def JVal.set (t : JVal) (k : String) (v : JVal) : JVal :=
  match t with
  | .obj fs => .obj (jsSetL fs k v)
  | other => other

/-- `delete v[k]`, total version: removes the key from an object, no-op on
anything else (used where the source guarantees the receiver is an object
or a primitive, where `delete` silently succeeds). -/
def jsDeleteT (v : JVal) (k : String) : JVal :=
  match v with
  | .obj fs => .obj (fs.filter (fun p => ¬ p.1 = k))
  | other => other

/-- `delete v[k]` as in JavaScript: throws on `null`/`undefined`. -/
def jsDeleteE (v : JVal) (k : String) : Except String JVal :=
  match v with
  | .undefined => .error "TypeError: cannot convert undefined to object"
  | .null => .error "TypeError: cannot convert null to object"
  | other => .ok (jsDeleteT other k)

/-- Keep the first occurrence of every element, dropping later repeats
(models that a JS object holds each key once, whichever representation list
is supplied). -/
def dedupFirst : List String → List String
  | [] => []
  | x :: xs => x :: (dedupFirst xs).filter (fun y => ¬ y = x)

/-- `Object.keys(v)` for a value that is not `null`/`undefined`: key list
for objects, index strings for arrays and strings, empty for the other
primitives. -/
def jsObjectKeysT : JVal → List String
  | .obj fs => dedupFirst (fs.map Prod.fst)
  | .arr xs => (List.range xs.length).map (fun i => toString i)
  | .str s => (List.range s.length).map (fun i => toString i)
  | _ => []

/-- `Object.keys(v)` as in JavaScript: throws on `null`/`undefined`. -/
def jsObjectKeysE (v : JVal) : Except String (List String) :=
  match v with
  | .undefined => .error "TypeError: Object.keys called on undefined"
  | .null => .error "TypeError: Object.keys called on null"
  | other => .ok (jsObjectKeysT other)

/-! ## `String.prototype.split('--')`

`splitDD` mirrors the JavaScript left-to-right, non-overlapping scan of
`type.split('--')` on character lists. -/

/-- `chars.split('--')` on a character list, exactly as the JS scan: cut at
the leftmost `--`, continue after it. -/
def splitDD : List Char → List (List Char)
  | [] => [[]]
  | '-' :: '-' :: rest => [] :: splitDD rest
  | c :: rest =>
    match splitDD rest with
    | [] => [[c]]
    | p :: ps => (c :: p) :: ps

/-- `s.split('--')` on strings. -/
def jsSplitDD (s : String) : List String :=
  (splitDD s.data).map (fun cs => String.mk cs)

/-- Join with `--`, the inverse direction of `splitDD`. -/
def joinDD : List (List Char) → List Char
  | [] => []
  | [p] => p
  | p :: ps => p ++ '-' :: '-' :: joinDD ps

theorem splitDD_ne_nil (l : List Char) : splitDD l ≠ [] := by
  induction l using splitDD.induct with
  | case1 => simp [splitDD]
  | case2 rest ih => simp [splitDD]
  | case3 c rest h hsp ih =>
    rw [splitDD.eq_3 c rest h, hsp]
    simp
  | case4 c rest h p ps hsp ih =>
    rw [splitDD.eq_3 c rest h, hsp]
    simp

theorem joinDD_splitDD (l : List Char) : joinDD (splitDD l) = l := by
  induction l using splitDD.induct with
  | case1 => simp [splitDD, joinDD]
  | case2 rest ih =>
    rw [splitDD.eq_2]
    match hsp : splitDD rest with
    | [] => exact absurd hsp (splitDD_ne_nil rest)
    | p :: ps =>
      rw [hsp] at ih
      show '-' :: '-' :: joinDD (p :: ps) = '-' :: '-' :: rest
      rw [ih]
  | case3 c rest h hsp ih => exact absurd hsp (splitDD_ne_nil rest)
  | case4 c rest h p ps hsp ih =>
    rw [splitDD.eq_3 c rest h, hsp]
    rw [hsp] at ih
    match ps with
    | [] =>
      show c :: p = c :: rest
      rw [show joinDD [p] = p from rfl] at ih
      rw [ih]
    | q :: qs =>
      show (c :: p) ++ '-' :: '-' :: joinDD (q :: qs) = c :: rest
      have ih2 : p ++ '-' :: '-' :: joinDD (q :: qs) = rest := ih
      simp [← ih2]

-- sanity checks of the split embedding against JS behaviour
example : jsSplitDD "node--article" = ["node", "article"] := by decide
example : jsSplitDD "a---b" = ["a", "-b"] := by decide
example : jsSplitDD "" = [""] := by decide
example : jsSplitDD "--" = ["", ""] := by decide

/-! ## Regular expressions of the source

The source uses five fixed regular expressions; each is embedded as a
decidable string predicate. -/

/-- Anchored-at-start matching of a pattern against a character list (the
kernel reduces this, unlike `String.startsWith`). -/
def charsPre : List Char → List Char → Bool
  | [], _ => true
  | _ :: _, [] => false
  | c :: cs, d :: ds => c = d && charsPre cs ds

/-- Tail matcher shared by the two id regexes: after the underscore prefix
the key must read `id` or `<lowercase letter>id`. -/
def matchIdTail : List Char → Bool
  | ['i', 'd'] => true
  | [c, 'i', 'd'] => c.isLower
  | _ => false

/-- `/^drupal_internal__[a-z]?id$/` from the `id` getter (line 30): note the
TWO underscores. -/
def isIdKey (k : String) : Bool :=
  charsPre "drupal_internal__".data k.data && matchIdTail (k.data.drop 17)

/-- `/^drupal_internal_[a-z]?id$/` from `cleanFields` (line 300): note the
single underscore before the optional letter. -/
def isCleanIdKey (k : String) : Bool :=
  charsPre "drupal_internal_".data k.data && matchIdTail (k.data.drop 16)

/-- The `fieldTests` of `cleanFields` (lines 298-302): `/^field_/`,
`/^drupal_internal_[a-z]?id$/`, `/^(label|title|status|path|paragraphs)$/`. -/
def cleanFieldTest (k : String) : Bool :=
  charsPre "field_".data k.data || isCleanIdKey k ||
  k = "label" || k = "title" || k = "status" || k = "path" || k = "paragraphs"

/-- The default `config.relationshipTests` (lines 8-11): `/^field_/` and
`/^paragraphs$/`. -/
def relationshipTest (k : String) : Bool :=
  charsPre "field_".data k.data || k = "paragraphs"

-- the crucial pair of facts behind the id claim: the key Drupal actually
-- sends is matched by the id getter's regex but NOT by the transform's
example : isIdKey "drupal_internal__nid" = true := by decide
example : isCleanIdKey "drupal_internal__nid" = false := by decide
example : isCleanIdKey "drupal_internal_id" = true := by decide

/-- `s.indexOf('--') > 1` (line 14): the first occurrence of `--` starts at
index 2 or later, i.e. the split has at least two parts and the first part
is longer than one character. -/
def ddIndexGtOne (s : String) : Bool :=
  match splitDD s.data with
  | p :: _ :: _ => 1 < p.length
  | _ => false

/-- The default `config.isRelationship` (line 14):
`typeof i === 'object' && i && !Array.isArray(i) && i.type && i.id &&
i.type.indexOf('--') > 1`, throw-free skeleton: the error paths of the JS
(a truthy `type` without an `indexOf`, i.e. neither string nor array, and
an array `type` passing the index test only to throw later at `split`)
are collapsed to `false` here; `isRelationshipE` below embeds them
faithfully, and `parseE_agrees` shows the skeleton agrees with the
faithful extraction wherever the latter returns. -/
def isRelationship (v : JVal) : Bool :=
  match v with
  | .obj _ =>
    (v.get "type").truthy && (v.get "id").truthy &&
    (match v.get "type" with
     | .str s => ddIndexGtOne s
     | _ => false)
  | _ => false

/-! ## cleanField / cleanFields / transform (lines 282-325) -/

mutual
/-- `cleanField` (lines 313-325).  The JS body first deletes `links` when
`field.links && field.links.self`, then replaces an array `data` member by
its recursively cleaned copy.  The two steps touch different keys of the
same object, so they are rendered here as one pass: the `links` entries are
filtered out (when the condition holds on the incoming object) and the
`data` entry is rewritten. -/
def cleanField : JVal → JVal
  | .arr xs => .arr (cleanFieldList xs)
  | .obj fs =>
    let dropLinks := (jsGetL fs "links").truthy &&
      ((jsGetL fs "links").get "self").truthy
    .obj (if dropLinks then
            (cleanDataEntries fs).filter (fun p => ¬ p.1 = "links")
          else cleanDataEntries fs)
  | f => f

/-- `field.data = this.cleanField(field.data)` (lines 318-320), applied to
the `data` member when it holds an array. -/
def cleanDataEntries : List (String × JVal) → List (String × JVal)
  | [] => []
  | (k, v) :: rest =>
    (k, if k = "data" then
          match v with
          | .arr ds => .arr (cleanFieldList ds)
          | other => other
        else v) :: cleanDataEntries rest

/-- `field.map(f => this.cleanField(f))` (line 322). -/
def cleanFieldList : List JVal → List JVal
  | [] => []
  | x :: xs => cleanField x :: cleanFieldList xs
end

/-- `cleanFields` (lines 297-306): `Object.keys(fields)` (throws on an
absent mapping), filter by `fieldTests`, then rebuild the object via
`Object.assign`. -/
def cleanFields (fields : JVal) : Except String JVal :=
  match jsObjectKeysE fields with
  | .error e => .error e
  | .ok ks =>
    .ok (.obj ((ks.filter cleanFieldTest).foldl
      (fun acc k => jsSetL acc k (cleanField (fields.get k))) []))

/-- `Object.assign(res.data, { [fieldSet]: cleaned })` (line 289): mutating
the object stored under `data`.  Reaching this with a non-object `data` is
impossible: `cleanFields` has already thrown on the `undefined` read. -/
def assignIntoData (res : JVal) (k : String) (v : JVal) :
    Except String JVal :=
  match res.get "data" with
  | .obj fs => .ok (res.set "data" (.obj (jsSetL fs k v)))
  | _ => .error "TypeError: Object.assign on a non-object"

/-- Lines 285-287 of `transform`:
`if (res.data && res.data.links) { delete res.data.links }`. -/
def transformStep3 (r2 : JVal) : JVal :=
  if (r2.get "data").truthy && ((r2.get "data").get "links").truthy
  then r2.set "data" (jsDeleteT (r2.get "data") "links") else r2

/-- Lines 288-290 of `transform`: the `forEach` over
`['attributes', 'relationships']`, each step reading `res.data[fieldSet]`,
cleaning it, and assigning the result back onto `res.data`. -/
def transformTail (r3 : JVal) : Except String JVal := do
  let a ← jsIndexE (r3.get "data") "attributes"
  let ca ← cleanFields a
  let r4 ← assignIntoData r3 "attributes" ca
  let rel ← jsIndexE (r4.get "data") "relationships"
  let cr ← cleanFields rel
  assignIntoData r4 "relationships" cr

/-- `transform` (lines 282-291): delete `jsonapi` and `links`, drop
`res.data.links`, then clean both field sets. -/
def transform (res : JVal) : Except String JVal := do
  let r1 ← jsDeleteE res "jsonapi"
  let r2 ← jsDeleteE r1 "links"
  transformTail (transformStep3 r2)

/-! ## The entity itself (constructor, lines 6-23) -/

/-- `getData` (lines 68-79). -/
def getData (input : JVal) : JVal :=
  if (input.get "data").truthy && ((input.get "data").get "type").truthy &&
     ((input.get "data").get "id").truthy then input.get "data"
  else if (input.get "type").truthy && (input.get "id").truthy then input
  else if (input.get "data").truthy && (input.get "data").isArr then
    input.get "data"
  else .obj []

/-- An entity holds the cleaned resource (`this.res`); the other fields of
the JS instance (`data`, `attrs`, `_fieldMap`, `_id`) are pure functions of
it and are embedded as derived definitions. -/
structure Entity where
  res : JVal

/-- `this.data = this.getData(this.res)` (line 18). -/
def Entity.data (e : Entity) : JVal := getData e.res

/-- `this.attrs = this.res && this.res.data && this.res.data.attributes ?
this.res.data.attributes : {}` (line 19). -/
def Entity.attrs (e : Entity) : JVal :=
  if e.res.truthy && (e.res.get "data").truthy &&
     ((e.res.get "data").get "attributes").truthy then
    (e.res.get "data").get "attributes"
  else .obj []

/-- `this.relationshipGroups = ['relationships']` (line 20). -/
def relationshipGroups : List String := ["relationships"]

/-- Construction with the default configuration: `cleanEntity` is the
default `transform`, which can throw. -/
def mkEntity (apiData : JVal) : Except String Entity :=
  (transform apiData).map Entity.mk

/-- `isCollection` (lines 85-87). -/
def Entity.isCollection (e : Entity) : Bool := e.data.isArr

/-! ## Field map (lines 165-175) and accessors -/

/-- `makePath` (line 167): each key is paired with `path.concat(key)`. -/
def makePath (keys : List String) (path : List String) :
    List (String × List String) :=
  keys.map (fun k => (k, path ++ [k]))

/-- `relationshipFieldNames` (lines 190-193):
`Object.keys(this.data[group] || []).filter(k => tests.some(r => r.test(k)))`. -/
def Entity.relationshipFieldNames (e : Entity) (group : String) :
    List String :=
  let v := e.data.get group
  (jsObjectKeysT (if v.truthy then v else .arr [])).filter relationshipTest

/-- The pair list fed to `new Map(...)` by the `fieldMap` getter
(lines 165-175): attribute paths first, then for each relationship group
the matching field names.  Collections never build a map. -/
def Entity.fieldPairs (e : Entity) : List (String × List String) :=
  if e.isCollection then []
  else relationshipGroups.foldl
    (fun fields g => fields ++ makePath (e.relationshipFieldNames g) ["data", g])
    (makePath (jsObjectKeysT e.attrs) ["data", "attributes"])

/-- `this.fieldMap.has(name)`. -/
def Entity.fieldHas (e : Entity) (name : String) : Bool :=
  e.fieldPairs.any (fun p => p.1 = name)

/-- `this.fieldMap.get(name)`: a JS `Map` built from a pair list keeps, for
each key, the value of the LAST pair carrying that key. -/
def Entity.fieldGet (e : Entity) (name : String) : Option (List String) :=
  (e.fieldPairs.reverse.find? (fun p => p.1 = name)).map Prod.snd

/-- `getPath` (lines 181-183): `path.reduce((value, key) => value[key],
this.res)`; reading a property of `null`/`undefined` throws. -/
def Entity.getPath (e : Entity) (path : List String) : Except String JVal :=
  path.foldlM jsIndexE e.res

/-- The `entity` getter (lines 43-45):
`this.res.data.type.split('--')[0]`; throws when `type` is not a string. -/
def Entity.entityName (e : Entity) : Except String String :=
  match (e.res.get "data").get "type" with
  | .str s => .ok ((jsSplitDD s).headD "")
  | _ => .error "TypeError: split is not a function"

/-- The `bundle` getter (lines 59-61): `split('--')[1]`, which is
`undefined` when the type has no separator. -/
def Entity.bundleName (e : Entity) : Except String JVal :=
  match (e.res.get "data").get "type" with
  | .str s => .ok (match (jsSplitDD s).drop 1 with
      | b :: _ => .str b
      | [] => .undefined)
  | _ => .error "TypeError: split is not a function"

/-- The `id` getter (lines 28-37): first attribute key matching
`/^drupal_internal__[a-z]?id$/`; `this._id` stays `null` when none
matches. -/
def Entity.idValue (e : Entity) : JVal :=
  match (jsObjectKeysT e.attrs).find? isIdKey with
  | some k => e.attrs.get k
  | none => .null

/-- `field` (lines 94-99).  `Map.has` and `Map.get` agree, so the absent
case is rendered directly on `fieldGet`; the error message is the template
literal of line 96, which itself evaluates `this.entity`. -/
def Entity.field (e : Entity) (name : String) : Except String JVal :=
  match e.fieldGet name with
  | some path => e.getPath path
  | none =>
    match e.entityName with
    | .ok ent => .error ("The field (" ++ name ++
        ") is not part of the entity (" ++ ent ++ ")")
    | .error m => .error m

/-! ## Value resolution (lines 106-159) -/

/-- The external collaborator (`this.api`) as `getFieldValue` uses it:
`getRelationship` hydrates a reference into an entity of an abstract type
`E`, on which `.value(name)` can be called again. -/
structure Collab (E : Type) where
  getRelationship : JVal → E
  value : E → String → E

/-- Lines 137-147 of `getFieldValue`: unwrap a `data` envelope (taking the
element at `index` when `data` is an array) and then index into an array
result when the indexed element is truthy. -/
def unwrapAt (s : JVal) (index : Nat) : JVal :=
  let v := if s.typeofObject && s.truthy then
      match s.get "data" with
      | .arr xs => xs.getD index .undefined
      | d => if d.truthy then d else s
    else s
  match v with
  | .arr xs => if (xs.getD index .undefined).truthy then xs.getD index .undefined else v
  | _ => v

/-- `getFieldValue` (lines 136-159): after unwrapping, a relationship-shaped
value is hydrated through the collaborator, with the special
`paragraph--from_library` double hop; anything else is returned as data. -/
def getFieldValue {E : Type} (col : Collab E) (s : JVal) (index : Nat) :
    JVal ⊕ E :=
  let v := unwrapAt s index
  if isRelationship v then
    let parts := match v.get "type" with
      | .str t => jsSplitDD t
      | _ => []
    if parts.headD "" = "paragraph" && parts.getD 1 "" = "from_library" then
      .inr (col.value (col.value (col.getRelationship v)
        "field_reusable_paragraph") "paragraphs")
    else .inr (col.getRelationship v)
  else .inl v

/-- `value` (lines 106-112): with the default configuration
`valueProcessors` is `{}`, so the processor branch never fires. -/
def Entity.value {E : Type} (col : Collab E) (e : Entity) (name : String) :
    Except String (JVal ⊕ E) :=
  (e.field name).map (fun f => getFieldValue col f 0)

/-- A collaborator with nothing behind it, for closed evaluations. -/
def unitCollab : Collab Unit := ⟨fun _ => (), fun _ _ => ()⟩

/-! ## An induction principle for `JVal` -/

theorem JVal.myInduction (P : JVal → Prop)
    (hundefined : P .undefined) (hnull : P .null) (hbool : ∀ b, P (.bool b))
    (hnum : ∀ n, P (.num n)) (hstr : ∀ s, P (.str s))
    (harr : ∀ xs, (∀ x ∈ xs, P x) → P (.arr xs))
    (hobj : ∀ fs, (∀ p ∈ fs, P p.2) → P (.obj fs)) :
    ∀ v, P v := by
  have H : ∀ n v, sizeOf v ≤ n → P v := by
    intro n
    induction n with
    | zero => intro v hv; cases v <;> simp_arith at hv
    | succ n ih =>
      intro v hv
      cases v with
      | undefined => exact hundefined
      | null => exact hnull
      | bool b => exact hbool b
      | num m => exact hnum m
      | str s => exact hstr s
      | arr xs =>
        refine harr xs (fun x hx => ih x ?_)
        have h1 : sizeOf x < sizeOf xs := List.sizeOf_lt_of_mem hx
        have h2 : sizeOf (JVal.arr xs) = 1 + sizeOf xs := by simp_arith
        omega
      | obj fs =>
        refine hobj fs (fun p hp => ih p.2 ?_)
        have h1 : sizeOf p < sizeOf fs := List.sizeOf_lt_of_mem hp
        have h2 : sizeOf p = 1 + sizeOf p.1 + sizeOf p.2 := by
          obtain ⟨a, b⟩ := p; simp_arith
        have h3 : sizeOf (JVal.obj fs) = 1 + sizeOf fs := by simp_arith
        omega
  intro v
  exact H (sizeOf v) v (Nat.le_refl _)

/-! ## Concrete payloads for the spec scenarios -/

/-- The C1 scenario resource: type `node--article`, id `"42"`, attributes
`drupal_internal__nid = 42` and `field_title = "Hello"` (with the
`relationships` mapping present, as in every real payload). -/
def c1payload : JVal :=
  .obj [("data", .obj [
    ("type", .str "node--article"),
    ("id", .str "42"),
    ("attributes", .obj [
      ("drupal_internal__nid", .num 42),
      ("field_title", .str "Hello")]),
    ("relationships", .obj [])])]

/-- A single resource whose payload lacks the `relationships` mapping. -/
def c6payloadNoRel : JVal :=
  .obj [("data", .obj [
    ("type", .str "node--article"), ("id", .str "1"),
    ("attributes", .obj [("title", .str "x")])])]

/-- A collection payload (`data` is an array), which has neither a
top-level `attributes` nor a `relationships` mapping. -/
def c6payloadCollection : JVal :=
  .obj [("data", .arr [
    .obj [("type", .str "node--article"), ("id", .str "1"),
          ("attributes", .obj [("title", .str "x")])]])]

/-- C1: for the scenario resource (default configuration),
`value('field_title')` is `"Hello"`, `entity` is `"node"` and `bundle` is
`"article"` as the spec claims — but `id` is `null`, not `42`: the
transform's `/^drupal_internal_[a-z]?id$/` (one underscore) strips the
`drupal_internal__nid` attribute that the id getter's
`/^drupal_internal__[a-z]?id$/` (two underscores) would match, so the
claim's `id === 42` fails on the code. -/
theorem C1_scenario_id_is_null :
    ∃ e, mkEntity c1payload = .ok e ∧
      Entity.value unitCollab e "field_title" = .ok (.inl (.str "Hello")) ∧
      e.entityName = .ok "node" ∧
      e.bundleName = .ok (.str "article") ∧
      e.idValue = JVal.null ∧ ¬ e.idValue = JVal.num 42 :=
  ⟨Entity.mk (.obj [("data", .obj [
      ("type", .str "node--article"),
      ("id", .str "42"),
      ("attributes", .obj [("field_title", .str "Hello")]),
      ("relationships", .obj [])])]),
    rfl, rfl, rfl, rfl, rfl, fun h => nomatch h⟩

/-- C6: constructing an entity with the default configuration from a
payload lacking the `relationships` mapping, or from a collection payload
(which lacks `attributes`), throws instead of defaulting the absent mapping
to an empty container: `transform` feeds the absent member to
`Object.keys`. -/
theorem C6_absent_mappings_throw :
    mkEntity c6payloadNoRel
        = .error "TypeError: Object.keys called on undefined" ∧
    mkEntity c6payloadCollection
        = .error "TypeError: Object.keys called on undefined" :=
  ⟨rfl, rfl⟩

/-! ## C5: unmapped field names fail with the FieldNotFound error -/

/-- C5: for every entity and name with no field-map entry, `field(name)`
fails, and the error message names both the requested field and the entity
kind (it is exactly the template literal of line 96). -/
theorem C5_field_not_found (e : Entity) (name ent : String)
    (hmap : e.fieldGet name = none) (hent : e.entityName = .ok ent) :
    e.field name = .error ("The field (" ++ name ++
      ") is not part of the entity (" ++ ent ++ ")") := by
  unfold Entity.field
  rw [hmap, hent]

/-- A cleaned single-resource entity used to instantiate the quantified
theorems. -/
def sampleEntity : Entity :=
  Entity.mk (.obj [("data", .obj [
    ("type", .str "node--article"),
    ("id", .str "42"),
    ("attributes", .obj [("field_title", .str "Hello")]),
    ("relationships", .obj [])])])

theorem C5_field_not_found_witness :
    sampleEntity.fieldGet "nonexistent" = none ∧
    sampleEntity.entityName = .ok "node" ∧
    sampleEntity.field "nonexistent" =
      .error "The field (nonexistent) is not part of the entity (node)" :=
  ⟨rfl, rfl, C5_field_not_found sampleEntity "nonexistent" "node" rfl rfl⟩

/-! ## C8: entity ++ "--" ++ bundle reconstructs the type string -/

/-- The `type` string of the wrapped resource, when it is a string. -/
def Entity.typeString (e : Entity) : Option String :=
  match (e.res.get "data").get "type" with
  | .str s => some s
  | _ => none

theorem stringEqOfData {a b : String} (h : a.data = b.data) : a = b := by
  cases a; cases b; simp_all

/-- C8: for a non-collection resource whose `type` splits at exactly one
`--` separator, `entity + "--" + bundle` reconstructs the `type` string. -/
theorem C8_type_roundtrip (e : Entity) (s : String)
    (hcol : e.isCollection = false)
    (hty : e.typeString = some s)
    (hlen : (jsSplitDD s).length = 2) :
    ∃ ent b, e.entityName = .ok ent ∧ e.bundleName = .ok (.str b) ∧
      ent ++ "--" ++ b = s := by
  unfold Entity.typeString at hty
  unfold Entity.entityName Entity.bundleName
  cases hm : (e.res.get "data").get "type" with
  | str t =>
    rw [hm] at hty
    simp only [Option.some.injEq] at hty
    subst hty
    obtain ⟨p, q, hpq⟩ : ∃ p q, splitDD t.data = [p, q] := by
      unfold jsSplitDD at hlen
      match hq : splitDD t.data with
      | [] => rw [hq] at hlen; simp at hlen
      | [x] => rw [hq] at hlen; simp at hlen
      | [x, y] => exact ⟨x, y, rfl⟩
      | x :: y :: z :: r => rw [hq] at hlen; simp at hlen
    refine ⟨String.mk p, String.mk q, ?_, ?_, ?_⟩
    · simp [jsSplitDD, hpq]
    · simp [jsSplitDD, hpq]
    · have hj : p ++ '-' :: '-' :: q = t.data := by
        have hx := joinDD_splitDD t.data
        rw [hpq] at hx
        exact hx
      refine stringEqOfData ?_
      rw [String.data_append, String.data_append]
      show p ++ ('-' :: '-' :: []) ++ q = t.data
      rw [← hj]
      simp
  | undefined => rw [hm] at hty; simp at hty
  | null => rw [hm] at hty; simp at hty
  | bool b => rw [hm] at hty; simp at hty
  | num n => rw [hm] at hty; simp at hty
  | arr xs => rw [hm] at hty; simp at hty
  | obj fs => rw [hm] at hty; simp at hty

theorem C8_type_roundtrip_witness :
    sampleEntity.isCollection = false ∧
    sampleEntity.typeString = some "node--article" ∧
    (jsSplitDD "node--article").length = 2 ∧
    ∃ ent b, sampleEntity.entityName = .ok ent ∧
      sampleEntity.bundleName = .ok (.str b) ∧
      ent ++ "--" ++ b = "node--article" :=
  ⟨rfl, rfl, rfl, C8_type_roundtrip sampleEntity "node--article" rfl rfl rfl⟩

/-! ## C10: relationship paths overwrite attribute paths in the field map -/

theorem makePath_value {names path : List String} {q : String × List String}
    (hq : q ∈ makePath names path) : q = (q.1, path ++ [q.1]) := by
  unfold makePath at hq
  obtain ⟨n, _, rfl⟩ := List.mem_map.mp hq
  rfl

/-- C10: when a name is both an attribute key and a matching relationship
field name, the field map stores the relationship path
`['data', 'relationships', name]` — the map is built attributes-first and a
JS `Map` keeps the last pair for a repeated key. -/
theorem C10_relationship_path_wins (e : Entity) (k : String)
    (hcol : e.isCollection = false)
    (hattr : k ∈ jsObjectKeysT e.attrs)
    (hrel : k ∈ e.relationshipFieldNames "relationships") :
    e.fieldGet k = some ["data", "relationships", k] := by
  have hpairs : e.fieldPairs =
      makePath (jsObjectKeysT e.attrs) ["data", "attributes"] ++
      makePath (e.relationshipFieldNames "relationships")
        ["data", "relationships"] := by
    unfold Entity.fieldPairs
    rw [hcol]
    simp [relationshipGroups]
  unfold Entity.fieldGet
  rw [hpairs, List.reverse_append, List.find?_append]
  have hmem : (k, (["data", "relationships"] : List String) ++ [k]) ∈
      (makePath (e.relationshipFieldNames "relationships")
        ["data", "relationships"]).reverse := by
    rw [List.mem_reverse]
    exact List.mem_map.mpr ⟨k, hrel, rfl⟩
  have hsome : (List.find? (fun p => p.1 = k)
      (makePath (e.relationshipFieldNames "relationships")
        ["data", "relationships"]).reverse).isSome = true := by
    rw [List.find?_isSome]
    exact ⟨_, hmem, by simp⟩
  obtain ⟨q, hq⟩ := Option.isSome_iff_exists.mp hsome
  rw [hq]
  have hq1 : q.1 = k := by simpa using List.find?_some hq
  have hqv : q = (q.1, (["data", "relationships"] : List String) ++ [q.1]) :=
    makePath_value (List.mem_reverse.mp (List.mem_of_find?_eq_some hq))
  rw [hq1] at hqv
  rw [hqv]
  rfl

/-- An entity whose `attributes` and `relationships` both carry the field
name `field_dual`. -/
def dualEntity : Entity :=
  Entity.mk (.obj [("data", .obj [
    ("type", .str "node--article"), ("id", .str "1"),
    ("attributes", .obj [("field_dual", .str "a")]),
    ("relationships", .obj [("field_dual", .obj [("data", .null)])])])])

theorem C10_relationship_path_wins_witness :
    dualEntity.isCollection = false ∧
    "field_dual" ∈ jsObjectKeysT dualEntity.attrs ∧
    "field_dual" ∈ dualEntity.relationshipFieldNames "relationships" ∧
    dualEntity.fieldGet "field_dual" =
      some ["data", "relationships", "field_dual"] :=
  ⟨rfl, by decide, by decide,
    C10_relationship_path_wins dualEntity "field_dual" rfl (by decide)
      (by decide)⟩

/-! ## C2: the `paragraph--from_library` double hop -/

/-- C2: whenever the unwrap-and-index step of `getFieldValue` resolves to a
relationship reference whose type splits into kind `paragraph` and bundle
`from_library`, the result is the collaborator's hydrated entity for the
reference with `value('field_reusable_paragraph')` and then
`value('paragraphs')` applied to it — not the hydrated reference itself. -/
theorem C2_from_library_double_hop {E : Type} (col : Collab E)
    (s v : JVal) (index : Nat) (t : String)
    (hun : unwrapAt s index = v)
    (hrel : isRelationship v = true)
    (hty : v.get "type" = .str t)
    (hkind : (jsSplitDD t).headD "" = "paragraph")
    (hbundle : (jsSplitDD t).getD 1 "" = "from_library") :
    getFieldValue col s index =
      .inr (col.value (col.value (col.getRelationship v)
        "field_reusable_paragraph") "paragraphs") := by
  unfold getFieldValue
  rw [hun]
  simp only [hrel, hty, hkind, hbundle]
  simp

/-- A collaborator over `Nat` recording the shape of calls. -/
def c2collab : Collab Nat := ⟨fun _ => 1, fun e n => e * 2 + n.length⟩

/-- A `paragraph--from_library` relationship reference. -/
def c2ref : JVal :=
  .obj [("type", .str "paragraph--from_library"), ("id", .str "u1")]

/-- The reference wrapped in a `data` envelope, as stored in a field. -/
def c2struct : JVal := .obj [("data", c2ref)]

theorem C2_from_library_double_hop_witness :
    unwrapAt c2struct 0 = c2ref ∧
    isRelationship c2ref = true ∧
    c2ref.get "type" = .str "paragraph--from_library" ∧
    getFieldValue c2collab c2struct 0 =
      .inr (c2collab.value (c2collab.value (c2collab.getRelationship c2ref)
        "field_reusable_paragraph") "paragraphs") :=
  ⟨rfl, rfl, rfl,
    C2_from_library_double_hop c2collab c2struct c2ref 0
      "paragraph--from_library" rfl rfl rfl rfl rfl⟩

/-! ## Relationship extraction (lines 226-249) and traversal (198-219) -/

/-- A lookup key, `dataToLookup`'s result shape (lines 244-248). -/
structure Lookup where
  entity : String
  bundle : String
  uuid : JVal

/-- `dataToLookup` (lines 242-249): destructure `data.type.split('--')`
into entity and bundle (`bundle` is `[1]`, always present for values the
relationship predicate accepted) and carry `data.id` as uuid. -/
def dataToLookup (data : JVal) : Lookup :=
  let parts := match data.get "type" with
    | .str t => jsSplitDD t
    | _ => []
  ⟨parts.headD "", parts.getD 1 "", data.get "id"⟩

/-- The collaborator operations used by extraction and traversal:
`endpoint` canonicalizes a lookup to a string, `hasBeenTraversed` is the
shared visited test. -/
structure Api where
  endpoint : Lookup → String
  hasBeenTraversed : Lookup → Bool

/-- `Object.assign(set, more)` on lookup mappings: every entry of `more`
is written into `set` in order. -/
def setLookup (fs : List (String × Lookup)) (k : String) (v : Lookup) :
    List (String × Lookup) :=
  if fs.any (fun p => p.1 = k) then
    fs.map (fun p => if p.1 = k then (k, v) else p)
  else fs ++ [(k, v)]

def assignAll (set more : List (String × Lookup)) : List (String × Lookup) :=
  more.foldl (fun s p => setLookup s p.1 p.2) set

mutual
/-- `parseRelationshipLookups` (lines 226-236), throw-free skeleton built
on the throw-free `isRelationship`: a relationship value maps to its
single `{[endpoint(l)]: l}` entry; otherwise objects descend over
`Object.values` and arrays over their elements, `Object.assign`-folding
the recursive results into the accumulated set.
`parseRelationshipLookupsE` below keeps the JS error paths and agrees
with this skeleton wherever it returns (`parseE_agrees`). -/
def parseRelationshipLookups (api : Api) (items : JVal) :
    List (String × Lookup) :=
  if isRelationship items then
    let l := dataToLookup items
    [(api.endpoint l, l)]
  else
    match items with
    | .obj fs => parseLookupEntries api [] fs
    | .arr xs => parseLookupItems api [] xs
    | _ => []

/-- The reduce of line 233 over an object's values. -/
def parseLookupEntries (api : Api) (set : List (String × Lookup)) :
    List (String × JVal) → List (String × Lookup)
  | [] => set
  | (_, x) :: rest =>
    parseLookupEntries api (assignAll set (parseRelationshipLookups api x)) rest

/-- The reduce of line 233 over an array's elements. -/
def parseLookupItems (api : Api) (set : List (String × Lookup)) :
    List JVal → List (String × Lookup)
  | [] => set
  | x :: rest =>
    parseLookupItems api (assignAll set (parseRelationshipLookups api x)) rest
end

mutual
/-- Modelled from the claim's wording (spec §4.4): the relationship
references reachable by descending through nested objects (over their
values) and arrays (over their elements), stopping at any value that
satisfies the relationship predicate, collected in descent order.  Used as
the specification-side yardstick for `parseRelationshipLookups`. -/
def specReachableRefs (v : JVal) : List JVal :=
  if isRelationship v then [v]
  else match v with
    | .obj fs => specReachableRefsEntries fs
    | .arr xs => specReachableRefsList xs
    | _ => []

def specReachableRefsEntries : List (String × JVal) → List JVal
  | [] => []
  | (_, x) :: rest => specReachableRefs x ++ specReachableRefsEntries rest

def specReachableRefsList : List JVal → List JVal
  | [] => []
  | x :: rest => specReachableRefs x ++ specReachableRefsList rest
end

/-- The array of one group's relationship field values,
`this.relationshipFieldNames(group).map(k => this.data[group][k])`
(line 212). -/
def Entity.groupFieldValues (e : Entity) (group : String) : JVal :=
  .arr ((e.relationshipFieldNames group).map
    (fun k => (e.data.get group).get k))

/-- `Object.values(this.parseRelationshipLookups(...))` (lines 211-213). -/
def Entity.groupLookups (api : Api) (e : Entity) (group : String) :
    List Lookup :=
  (parseRelationshipLookups api (e.groupFieldValues group)).map Prod.snd

/-- `loadRelationshipGroup` (lines 209-219), rendered as the list of
`getEntity(l, depth + 1)` requests it issues, on the throw-free skeleton;
`Entity.loadRelationshipGroupE` below keeps the extraction errors. -/
def Entity.loadRelationshipGroup (api : Api) (e : Entity) (group : String)
    (depth : Nat) : List (Lookup × Nat) :=
  if ¬ e.isCollection ∧ (e.data.get group).truthy then
    ((Entity.groupLookups api e group).filter
      (fun l => ¬ api.hasBeenTraversed l)).map (fun l => (l, depth + 1))
  else []

/-- `loadRelationships` (lines 198-202): the concatenated requests of all
relationship groups; `Promise.all` joins exactly these.  Throw-free
skeleton of `Entity.loadRelationshipsE` below. -/
def Entity.loadRelationships (api : Api) (e : Entity) (depth : Nat) :
    List (Lookup × Nat) :=
  relationshipGroups.foldl
    (fun promises g => promises ++ Entity.loadRelationshipGroup api e g depth) []

/-! ## Lemmas about the `Object.assign`-built lookup mapping -/

theorem mem_setLookup {fs : List (String × Lookup)} {k : String}
    {v : Lookup} {p : String × Lookup} (hp : p ∈ setLookup fs k v) :
    p = (k, v) ∨ p ∈ fs := by
  unfold setLookup at hp
  split at hp
  · obtain ⟨q, hq, hqp⟩ := List.mem_map.mp hp
    by_cases hqk : q.1 = k
    · rw [if_pos hqk] at hqp
      exact Or.inl hqp.symm
    · rw [if_neg hqk] at hqp
      exact Or.inr (hqp ▸ hq)
  · rcases List.mem_append.mp hp with h | h
    · exact Or.inr h
    · exact Or.inl (List.mem_singleton.mp h)

theorem keys_setLookup (fs : List (String × Lookup)) (k : String)
    (v : Lookup) :
    (setLookup fs k v).map Prod.fst =
      if fs.any (fun p => p.1 = k) then fs.map Prod.fst
      else fs.map Prod.fst ++ [k] := by
  unfold setLookup
  split
  · rw [List.map_map]
    refine List.map_congr_left (fun q _ => ?_)
    by_cases hqk : q.1 = k
    · simp [hqk]
    · simp [hqk]
  · simp

theorem mem_keys_setLookup {fs : List (String × Lookup)} {k k1 : String}
    {v : Lookup} :
    k1 ∈ (setLookup fs k v).map Prod.fst ↔
      k1 = k ∨ k1 ∈ fs.map Prod.fst := by
  rw [keys_setLookup]
  split
  · rename_i hany
    constructor
    · exact fun h => Or.inr h
    · rintro (rfl | h)
      · obtain ⟨q, hq, hqk⟩ := List.any_eq_true.mp hany
        exact List.mem_map.mpr ⟨q, hq, by simpa using hqk⟩
      · exact h
  · rw [List.mem_append, List.mem_singleton, or_comm]

theorem nodup_keys_setLookup {fs : List (String × Lookup)} {k : String}
    {v : Lookup} (h : (fs.map Prod.fst).Nodup) :
    ((setLookup fs k v).map Prod.fst).Nodup := by
  rw [keys_setLookup]
  split
  · exact h
  · rename_i hany
    rw [List.nodup_append]
    refine ⟨h, List.nodup_singleton k, fun a ha hb => ?_⟩
    rw [List.mem_singleton] at hb
    subst hb
    obtain ⟨q, hq, hqk⟩ := List.mem_map.mp ha
    exact hany (List.any_eq_true.mpr ⟨q, hq, decide_eq_true hqk⟩)

theorem mem_assignAll {set more : List (String × Lookup)}
    {p : String × Lookup} (hp : p ∈ assignAll set more) :
    p ∈ set ∨ p ∈ more := by
  induction more generalizing set with
  | nil => exact Or.inl hp
  | cons q rest ih =>
    have h0 : p ∈ assignAll (setLookup set q.1 q.2) rest := hp
    rcases ih h0 with h | h
    · rcases mem_setLookup h with h2 | h2
      · right
        rw [h2]
        exact List.mem_cons_self _ _
      · exact Or.inl h2
    · exact Or.inr (List.mem_cons_of_mem _ h)

theorem mem_keys_assignAll {set more : List (String × Lookup)}
    {k : String} :
    k ∈ (assignAll set more).map Prod.fst ↔
      k ∈ set.map Prod.fst ∨ k ∈ more.map Prod.fst := by
  induction more generalizing set with
  | nil => simp [assignAll]
  | cons q rest ih =>
    show k ∈ (assignAll (setLookup set q.1 q.2) rest).map Prod.fst ↔ _
    rw [ih, mem_keys_setLookup]
    simp only [List.map_cons, List.mem_cons]
    tauto

theorem nodup_keys_assignAll {set more : List (String × Lookup)}
    (h : (set.map Prod.fst).Nodup) :
    ((assignAll set more).map Prod.fst).Nodup := by
  induction more generalizing set with
  | nil => exact h
  | cons q rest ih => exact ih (nodup_keys_setLookup h)

/-! ## Soundness, completeness and key-uniqueness of the extraction -/

/-- The mapping entry contributed by one relationship reference. -/
def epPair (api : Api) (r : JVal) : String × Lookup :=
  (api.endpoint (dataToLookup r), dataToLookup r)

theorem parseLookupEntries_sound (api : Api) :
    ∀ (fs : List (String × JVal)),
      (∀ q ∈ fs, ∀ p ∈ parseRelationshipLookups api q.2,
        ∃ r ∈ specReachableRefs q.2, p = epPair api r) →
      ∀ set p, p ∈ parseLookupEntries api set fs →
        p ∈ set ∨ ∃ r ∈ specReachableRefsEntries fs, p = epPair api r := by
  intro fs
  induction fs with
  | nil =>
    intro _ set p hp
    exact Or.inl hp
  | cons q rest ih =>
    intro IH set p hp
    obtain ⟨k, x⟩ := q
    rw [parseLookupEntries] at hp
    rcases ih (fun q hq => IH q (List.mem_cons_of_mem _ hq)) _ p hp with
      h | ⟨r, hr, hpr⟩
    · rcases mem_assignAll h with h2 | h2
      · exact Or.inl h2
      · obtain ⟨r, hr, hpr⟩ := IH (k, x) (List.mem_cons_self _ _) p h2
        refine Or.inr ⟨r, ?_, hpr⟩
        rw [specReachableRefsEntries]
        exact List.mem_append.mpr (Or.inl hr)
    · refine Or.inr ⟨r, ?_, hpr⟩
      rw [specReachableRefsEntries]
      exact List.mem_append.mpr (Or.inr hr)

theorem parseLookupItems_sound (api : Api) :
    ∀ (xs : List JVal),
      (∀ x ∈ xs, ∀ p ∈ parseRelationshipLookups api x,
        ∃ r ∈ specReachableRefs x, p = epPair api r) →
      ∀ set p, p ∈ parseLookupItems api set xs →
        p ∈ set ∨ ∃ r ∈ specReachableRefsList xs, p = epPair api r := by
  intro xs
  induction xs with
  | nil =>
    intro _ set p hp
    exact Or.inl hp
  | cons x rest ih =>
    intro IH set p hp
    rw [parseLookupItems] at hp
    rcases ih (fun y hy => IH y (List.mem_cons_of_mem _ hy)) _ p hp with
      h | ⟨r, hr, hpr⟩
    · rcases mem_assignAll h with h2 | h2
      · exact Or.inl h2
      · obtain ⟨r, hr, hpr⟩ := IH x (List.mem_cons_self _ _) p h2
        refine Or.inr ⟨r, ?_, hpr⟩
        rw [specReachableRefsList]
        exact List.mem_append.mpr (Or.inl hr)
    · refine Or.inr ⟨r, ?_, hpr⟩
      rw [specReachableRefsList]
      exact List.mem_append.mpr (Or.inr hr)

theorem parse_sound (api : Api) :
    ∀ v, ∀ p ∈ parseRelationshipLookups api v,
      ∃ r ∈ specReachableRefs v, p = epPair api r := by
  intro v
  induction v using JVal.myInduction with
  | hundefined =>
    intro p hp
    simp [parseRelationshipLookups, isRelationship] at hp
  | hnull =>
    intro p hp
    simp [parseRelationshipLookups, isRelationship] at hp
  | hbool b =>
    intro p hp
    simp [parseRelationshipLookups, isRelationship] at hp
  | hnum n =>
    intro p hp
    simp [parseRelationshipLookups, isRelationship] at hp
  | hstr s =>
    intro p hp
    simp [parseRelationshipLookups, isRelationship] at hp
  | harr xs IH =>
    intro p hp
    rw [parseRelationshipLookups] at hp
    rw [if_neg (by simp [isRelationship])] at hp
    rcases parseLookupItems_sound api xs IH [] p hp with h | ⟨r, hr, hpr⟩
    · exact absurd h (List.not_mem_nil p)
    · refine ⟨r, ?_, hpr⟩
      unfold specReachableRefs
      rw [if_neg (by simp [isRelationship])]
      exact hr
  | hobj fs IH =>
    intro p hp
    rw [parseRelationshipLookups] at hp
    by_cases hrel : isRelationship (.obj fs)
    · rw [if_pos hrel] at hp
      refine ⟨.obj fs, ?_, ?_⟩
      · unfold specReachableRefs
        rw [if_pos hrel]
        exact List.mem_singleton.mpr rfl
      · simpa [epPair] using List.mem_singleton.mp hp
    · rw [if_neg hrel] at hp
      rcases parseLookupEntries_sound api fs IH [] p hp with h | ⟨r, hr, hpr⟩
      · exact absurd h (List.not_mem_nil p)
      · refine ⟨r, ?_, hpr⟩
        unfold specReachableRefs
        rw [if_neg hrel]
        exact hr

theorem parseLookupEntries_nodup (api : Api) (fs : List (String × JVal)) :
    ∀ set, (set.map Prod.fst).Nodup →
      ((parseLookupEntries api set fs).map Prod.fst).Nodup := by
  induction fs with
  | nil => intro set h; exact h
  | cons q rest ih =>
    intro set h
    obtain ⟨k, x⟩ := q
    rw [parseLookupEntries]
    exact ih _ (nodup_keys_assignAll h)

theorem parseLookupItems_nodup (api : Api) (xs : List JVal) :
    ∀ set, (set.map Prod.fst).Nodup →
      ((parseLookupItems api set xs).map Prod.fst).Nodup := by
  induction xs with
  | nil => intro set h; exact h
  | cons x rest ih =>
    intro set h
    rw [parseLookupItems]
    exact ih _ (nodup_keys_assignAll h)

theorem parseRL_unfold (api : Api) (v : JVal) :
    parseRelationshipLookups api v =
      if isRelationship v then
        [(api.endpoint (dataToLookup v), dataToLookup v)]
      else match v with
        | .obj fs => parseLookupEntries api [] fs
        | .arr xs => parseLookupItems api [] xs
        | _ => [] := by
  cases v <;> rfl

theorem parse_nodup (api : Api) (v : JVal) :
    ((parseRelationshipLookups api v).map Prod.fst).Nodup := by
  rw [parseRL_unfold]
  by_cases hrel : isRelationship v
  · rw [if_pos hrel]
    simp
  · rw [if_neg hrel]
    cases v with
    | obj fs => exact parseLookupEntries_nodup api fs [] (by simp)
    | arr xs => exact parseLookupItems_nodup api xs [] (by simp)
    | undefined => simp
    | null => simp
    | bool b => simp
    | num n => simp
    | str s => simp

theorem keys_mono_entries (api : Api) (fs : List (String × JVal)) :
    ∀ set k, k ∈ set.map Prod.fst →
      k ∈ (parseLookupEntries api set fs).map Prod.fst := by
  induction fs with
  | nil => intro set k h; exact h
  | cons q rest ih =>
    intro set k h
    obtain ⟨k1, x⟩ := q
    rw [parseLookupEntries]
    exact ih _ k (mem_keys_assignAll.mpr (Or.inl h))

theorem keys_mono_items (api : Api) (xs : List JVal) :
    ∀ set k, k ∈ set.map Prod.fst →
      k ∈ (parseLookupItems api set xs).map Prod.fst := by
  induction xs with
  | nil => intro set k h; exact h
  | cons x rest ih =>
    intro set k h
    rw [parseLookupItems]
    exact ih _ k (mem_keys_assignAll.mpr (Or.inl h))

theorem parseLookupEntries_complete (api : Api) :
    ∀ (fs : List (String × JVal)),
      (∀ q ∈ fs, ∀ r ∈ specReachableRefs q.2,
        api.endpoint (dataToLookup r) ∈
          (parseRelationshipLookups api q.2).map Prod.fst) →
      ∀ set r, r ∈ specReachableRefsEntries fs →
        api.endpoint (dataToLookup r) ∈
          (parseLookupEntries api set fs).map Prod.fst := by
  intro fs
  induction fs with
  | nil =>
    intro _ set r hr
    rw [specReachableRefsEntries] at hr
    exact absurd hr (List.not_mem_nil r)
  | cons q rest ih =>
    intro IH set r hr
    obtain ⟨k, x⟩ := q
    rw [specReachableRefsEntries] at hr
    rw [parseLookupEntries]
    rcases List.mem_append.mp hr with h | h
    · have h1 := IH (k, x) (List.mem_cons_self _ _) r h
      exact keys_mono_entries api rest _ _ (mem_keys_assignAll.mpr (Or.inr h1))
    · exact ih (fun q hq => IH q (List.mem_cons_of_mem _ hq)) _ r h

theorem parseLookupItems_complete (api : Api) :
    ∀ (xs : List JVal),
      (∀ x ∈ xs, ∀ r ∈ specReachableRefs x,
        api.endpoint (dataToLookup r) ∈
          (parseRelationshipLookups api x).map Prod.fst) →
      ∀ set r, r ∈ specReachableRefsList xs →
        api.endpoint (dataToLookup r) ∈
          (parseLookupItems api set xs).map Prod.fst := by
  intro xs
  induction xs with
  | nil =>
    intro _ set r hr
    rw [specReachableRefsList] at hr
    exact absurd hr (List.not_mem_nil r)
  | cons x rest ih =>
    intro IH set r hr
    rw [specReachableRefsList] at hr
    rw [parseLookupItems]
    rcases List.mem_append.mp hr with h | h
    · have h1 := IH x (List.mem_cons_self _ _) r h
      exact keys_mono_items api rest _ _ (mem_keys_assignAll.mpr (Or.inr h1))
    · exact ih (fun y hy => IH y (List.mem_cons_of_mem _ hy)) _ r h

theorem parse_complete (api : Api) :
    ∀ v, ∀ r ∈ specReachableRefs v,
      api.endpoint (dataToLookup r) ∈
        (parseRelationshipLookups api v).map Prod.fst := by
  intro v
  induction v using JVal.myInduction with
  | hundefined =>
    intro r hr
    simp [specReachableRefs, isRelationship] at hr
  | hnull =>
    intro r hr
    simp [specReachableRefs, isRelationship] at hr
  | hbool b =>
    intro r hr
    simp [specReachableRefs, isRelationship] at hr
  | hnum n =>
    intro r hr
    simp [specReachableRefs, isRelationship] at hr
  | hstr s =>
    intro r hr
    simp [specReachableRefs, isRelationship] at hr
  | harr xs IH =>
    intro r hr
    unfold specReachableRefs at hr
    rw [if_neg (by simp [isRelationship])] at hr
    rw [parseRelationshipLookups, if_neg (by simp [isRelationship])]
    exact parseLookupItems_complete api xs IH [] r hr
  | hobj fs IH =>
    intro r hr
    unfold specReachableRefs at hr
    rw [parseRelationshipLookups]
    by_cases hrel : isRelationship (.obj fs)
    · rw [if_pos hrel] at hr ⊢
      rw [List.mem_singleton.mp hr]
      simp
    · rw [if_neg hrel] at hr ⊢
      exact parseLookupEntries_complete api fs IH [] r hr

theorem except_bind_ok {α β : Type} (a : α) (f : α → Except String β) :
    (Except.ok a >>= f) = f a := rfl

theorem except_bind_error {α β : Type} (m : String)
    (f : α → Except String β) :
    ((Except.error m : Except String α) >>= f) = .error m := rfl

/-! ## The extraction as it actually executes (with its TypeErrors)

`isRelationship`, `parseRelationshipLookups` and `loadRelationships` above
are the throw-free skeletons of the source (every JS error path collapsed
to `false`/skip).  The definitions below embed the same lines faithfully,
propagating the `TypeError`s the JS raises, and `parseE_agrees` proves the
skeleton computes the same mapping wherever the real code returns. -/

/-- `Array.prototype.indexOf('--')` as evaluated on a JS array `type`:
index of the first element strictly equal to the string `--`. -/
def jsArrIndexOfDD (xs : List JVal) : Option Nat :=
  xs.findIdx? (fun x => match x with | .str s => s = "--" | _ => false)

/-- The default `config.isRelationship` (line 14) as it executes:
`typeof i === 'object' && i && !Array.isArray(i) && i.type && i.id &&
i.type.indexOf('--') > 1`, left to right.  Once `i.type` and `i.id` are
truthy the JS evaluates `i.type.indexOf`, which exists on strings
(substring search) and arrays (element search) and otherwise throws. -/
def isRelationshipE (v : JVal) : Except String Bool :=
  match v with
  | .obj _ =>
    if ¬ (v.get "type").truthy then .ok false
    else if ¬ (v.get "id").truthy then .ok false
    else match v.get "type" with
      | .str s => .ok (ddIndexGtOne s)
      | .arr xs => .ok (match jsArrIndexOfDD xs with
          | some i => 1 < i
          | none => false)
      | _ => .error "TypeError: i.type.indexOf is not a function"
  | _ => .ok false

/-- `dataToLookup` (lines 242-249) as it executes: `data.type.split('--')`
throws when `type` is not a string (reachable, since an array `type` can
satisfy the relationship predicate). -/
def dataToLookupE (data : JVal) : Except String Lookup :=
  match data.get "type" with
  | .str _ => .ok (dataToLookup data)
  | _ => .error "TypeError: data.type.split is not a function"

mutual
/-- `parseRelationshipLookups` (lines 226-236) with its error paths:
the predicate may throw, and a reference whose `type` is not a string
throws at the `split` inside `dataToLookup`. -/
def parseRelationshipLookupsE (api : Api) (items : JVal) :
    Except String (List (String × Lookup)) :=
  match isRelationshipE items with
  | .error e => .error e
  | .ok true =>
    match dataToLookupE items with
    | .error e => .error e
    | .ok l => .ok [(api.endpoint l, l)]
  | .ok false =>
    match items with
    | .obj fs => parseLookupEntriesE api [] fs
    | .arr xs => parseLookupItemsE api [] xs
    | _ => .ok []

/-- The reduce of line 233 over an object's values, with errors. -/
def parseLookupEntriesE (api : Api) (set : List (String × Lookup)) :
    List (String × JVal) → Except String (List (String × Lookup))
  | [] => .ok set
  | (_, x) :: rest =>
    match parseRelationshipLookupsE api x with
    | .error e => .error e
    | .ok r => parseLookupEntriesE api (assignAll set r) rest

/-- The reduce of line 233 over an array's elements, with errors. -/
def parseLookupItemsE (api : Api) (set : List (String × Lookup)) :
    List JVal → Except String (List (String × Lookup))
  | [] => .ok set
  | x :: rest =>
    match parseRelationshipLookupsE api x with
    | .error e => .error e
    | .ok r => parseLookupItemsE api (assignAll set r) rest
end

/-- `Object.values(this.parseRelationshipLookups(...))` (lines 211-213)
with the extraction's errors. -/
def Entity.groupLookupsE (api : Api) (e : Entity) (group : String) :
    Except String (List Lookup) :=
  (parseRelationshipLookupsE api (e.groupFieldValues group)).map
    (fun m => m.map Prod.snd)

/-- `loadRelationshipGroup` (lines 209-219) with the extraction's errors:
a TypeError thrown while parsing rejects the whole call. -/
def Entity.loadRelationshipGroupE (api : Api) (e : Entity) (group : String)
    (depth : Nat) : Except String (List (Lookup × Nat)) :=
  if ¬ e.isCollection ∧ (e.data.get group).truthy then do
    let lks ← Entity.groupLookupsE api e group
    return (lks.filter (fun l => ¬ api.hasBeenTraversed l)).map
      (fun l => (l, depth + 1))
  else return []

/-- `loadRelationships` (lines 198-202) with the extraction's errors:
the list of `getEntity(l, depth + 1)` requests `Promise.all` joins, or the
rejection. -/
def Entity.loadRelationshipsE (api : Api) (e : Entity) (depth : Nat) :
    Except String (List (Lookup × Nat)) :=
  relationshipGroups.foldlM
    (fun promises g => do
      let r ← Entity.loadRelationshipGroupE api e g depth
      return promises ++ r) []

/-! ## Agreement of the skeleton with the executing extraction -/

theorem isRelationship_type_str {v : JVal}
    (h : isRelationship v = true) : ∃ s, v.get "type" = .str s := by
  cases v with
  | obj fs =>
    rw [isRelationship] at h
    cases htv : (JVal.obj fs).get "type" with
    | str s => exact ⟨s, rfl⟩
    | undefined => rw [htv] at h; exact Bool.noConfusion h
    | null => rw [htv] at h; exact Bool.noConfusion h
    | bool b => rw [htv] at h; simp at h
    | num n => rw [htv] at h; simp [JVal.truthy] at h
    | arr xs => rw [htv] at h; simp at h
    | obj gs => rw [htv] at h; simp at h
  | undefined => exact Bool.noConfusion h
  | null => exact Bool.noConfusion h
  | bool b => exact Bool.noConfusion h
  | num n => exact Bool.noConfusion h
  | str s => exact Bool.noConfusion h
  | arr xs => exact Bool.noConfusion h

theorem dataToLookupE_str {v : JVal} {s : String}
    (hs : v.get "type" = .str s) :
    dataToLookupE v = .ok (dataToLookup v) := by
  unfold dataToLookupE
  rw [hs]

theorem dataToLookupE_arr {v : JVal} {xs : List JVal}
    (hs : v.get "type" = .arr xs) :
    dataToLookupE v = .error "TypeError: data.type.split is not a function" := by
  unfold dataToLookupE
  rw [hs]

theorem isRelationshipE_cases (v : JVal) :
    isRelationshipE v = .ok (isRelationship v) ∨
    (∃ e, isRelationshipE v = .error e) ∨
    (isRelationshipE v = .ok true ∧ ∃ xs, v.get "type" = .arr xs) := by
  cases v with
  | obj fs =>
    by_cases ht : ((JVal.obj fs).get "type").truthy = true
    · by_cases hi : ((JVal.obj fs).get "id").truthy = true
      · cases htv : (JVal.obj fs).get "type" with
        | str s =>
          left
          have ht2 : (JVal.str s).truthy = true := by rw [← htv]; exact ht
          rw [isRelationshipE, isRelationship, if_neg (by simp [ht]),
            if_neg (by simp [hi]), htv, ht2, hi]
          simp
        | arr xs =>
          by_cases hidx : (match jsArrIndexOfDD xs with
              | some i => decide (1 < i)
              | none => false) = true
          · right; right
            refine ⟨?_, xs, rfl⟩
            rw [isRelationshipE, if_neg (by simp [ht]),
              if_neg (by simp [hi]), htv]
            show (Except.ok (match jsArrIndexOfDD xs with
              | some i => decide (1 < i)
              | none => false) : Except String Bool) = Except.ok true
            rw [hidx]
          · left
            have ht2 : (JVal.arr xs).truthy = true := by rw [← htv]; exact ht
            rw [isRelationshipE, isRelationship, if_neg (by simp [ht]),
              if_neg (by simp [hi]), htv, ht2, hi]
            show (Except.ok (match jsArrIndexOfDD xs with
              | some i => decide (1 < i)
              | none => false) : Except String Bool) =
              Except.ok (true && (true && false))
            rw [eq_false_of_ne_true hidx]
            rfl
        | undefined => rw [htv] at ht; exact Bool.noConfusion ht
        | null => rw [htv] at ht; exact Bool.noConfusion ht
        | bool b =>
          right; left
          refine ⟨"TypeError: i.type.indexOf is not a function", ?_⟩
          rw [isRelationshipE, if_neg (by simp [ht]),
            if_neg (by simp [hi]), htv]
        | num n =>
          right; left
          refine ⟨"TypeError: i.type.indexOf is not a function", ?_⟩
          rw [isRelationshipE, if_neg (by simp [ht]),
            if_neg (by simp [hi]), htv]
        | obj gs =>
          right; left
          refine ⟨"TypeError: i.type.indexOf is not a function", ?_⟩
          rw [isRelationshipE, if_neg (by simp [ht]),
            if_neg (by simp [hi]), htv]
      · left
        rw [isRelationshipE, isRelationship, if_neg (by simp [ht]),
          if_pos hi, ht, eq_false_of_ne_true hi]
        rfl
    · left
      rw [isRelationshipE, isRelationship, if_pos ht,
        eq_false_of_ne_true ht]
      rfl
  | undefined => left; rfl
  | null => left; rfl
  | bool b => left; rfl
  | num n => left; rfl
  | str s => left; rfl
  | arr xs => left; rfl

theorem parseLookupEntriesE_agrees (api : Api) :
    ∀ (fs : List (String × JVal)),
      (∀ q ∈ fs, ∀ m, parseRelationshipLookupsE api q.2 = .ok m →
        parseRelationshipLookups api q.2 = m) →
      ∀ set m, parseLookupEntriesE api set fs = .ok m →
        parseLookupEntries api set fs = m := by
  intro fs
  induction fs with
  | nil =>
    intro _ set m hm
    rw [parseLookupEntriesE] at hm
    rw [parseLookupEntries]
    exact Except.ok.inj hm
  | cons q rest ih =>
    intro IH set m hm
    obtain ⟨k, x⟩ := q
    rw [parseLookupEntriesE] at hm
    cases hx : parseRelationshipLookupsE api x with
    | error e => rw [hx] at hm; exact Except.noConfusion hm
    | ok r =>
      rw [hx] at hm
      rw [parseLookupEntries]
      rw [IH (k, x) (List.mem_cons_self _ _) r hx]
      exact ih (fun q hq => IH q (List.mem_cons_of_mem _ hq)) _ m hm

theorem parseLookupItemsE_agrees (api : Api) :
    ∀ (xs : List JVal),
      (∀ x ∈ xs, ∀ m, parseRelationshipLookupsE api x = .ok m →
        parseRelationshipLookups api x = m) →
      ∀ set m, parseLookupItemsE api set xs = .ok m →
        parseLookupItems api set xs = m := by
  intro xs
  induction xs with
  | nil =>
    intro _ set m hm
    rw [parseLookupItemsE] at hm
    rw [parseLookupItems]
    exact Except.ok.inj hm
  | cons x rest ih =>
    intro IH set m hm
    rw [parseLookupItemsE] at hm
    cases hx : parseRelationshipLookupsE api x with
    | error e => rw [hx] at hm; exact Except.noConfusion hm
    | ok r =>
      rw [hx] at hm
      rw [parseLookupItems]
      rw [IH x (List.mem_cons_self _ _) r hx]
      exact ih (fun y hy => IH y (List.mem_cons_of_mem _ hy)) _ m hm

theorem parseE_agrees (api : Api) :
    ∀ v m, parseRelationshipLookupsE api v = .ok m →
      parseRelationshipLookups api v = m := by
  intro v
  induction v using JVal.myInduction with
  | hundefined =>
    intro m hm
    have h0 : Except.ok ([] : List (String × Lookup)) = .ok m := hm
    rw [← Except.ok.inj h0]
    rfl
  | hnull =>
    intro m hm
    have h0 : Except.ok ([] : List (String × Lookup)) = .ok m := hm
    rw [← Except.ok.inj h0]
    rfl
  | hbool b =>
    intro m hm
    have h0 : Except.ok ([] : List (String × Lookup)) = .ok m := hm
    rw [← Except.ok.inj h0]
    rfl
  | hnum n =>
    intro m hm
    have h0 : Except.ok ([] : List (String × Lookup)) = .ok m := hm
    rw [← Except.ok.inj h0]
    rfl
  | hstr s =>
    intro m hm
    have h0 : Except.ok ([] : List (String × Lookup)) = .ok m := hm
    rw [← Except.ok.inj h0]
    rfl
  | harr xs IH =>
    intro m hm
    rcases isRelationshipE_cases (.arr xs) with hE | ⟨e, hE⟩ | ⟨hE, xs2, htv⟩
    · rw [parseRelationshipLookupsE, hE] at hm
      rw [show isRelationship (.arr xs) = false from rfl] at hm
      have hm2 : parseLookupItemsE api [] xs = .ok m := hm
      show parseLookupItems api [] xs = m
      exact parseLookupItemsE_agrees api xs IH [] m hm2
    · rw [parseRelationshipLookupsE, hE] at hm
      exact Except.noConfusion hm
    · exact JVal.noConfusion htv
  | hobj fs IH =>
    intro m hm
    rcases isRelationshipE_cases (.obj fs) with hE | ⟨e, hE⟩ | ⟨hE, xs2, htv⟩
    · by_cases hrel : isRelationship (.obj fs) = true
      · rw [parseRelationshipLookupsE, hE, hrel] at hm
        obtain ⟨s, hs⟩ := isRelationship_type_str hrel
        rw [dataToLookupE_str hs] at hm
        have hm2 : Except.ok [(api.endpoint (dataToLookup (.obj fs)),
          dataToLookup (.obj fs))] = .ok m := hm
        rw [parseRL_unfold, if_pos hrel]
        exact Except.ok.inj hm2
      · rw [parseRelationshipLookupsE, hE,
          eq_false_of_ne_true hrel] at hm
        have hm2 : parseLookupEntriesE api [] fs = .ok m := hm
        rw [parseRL_unfold, if_neg hrel]
        exact parseLookupEntriesE_agrees api fs IH [] m hm2
    · rw [parseRelationshipLookupsE, hE] at hm
      exact Except.noConfusion hm
    · rw [parseRelationshipLookupsE, hE, dataToLookupE_arr htv] at hm
      exact Except.noConfusion hm

/-- Specification of the (deduplicated) lookups extracted from one value,
stated on the skeleton; carried to the executing extraction through
`parseE_agrees`. -/
theorem groupLookups_spec (api : Api) (gv : JVal) :
    (((parseRelationshipLookups api gv).map Prod.snd).map api.endpoint).Nodup ∧
    (∀ l ∈ (parseRelationshipLookups api gv).map Prod.snd,
      ∃ r ∈ specReachableRefs gv, l = dataToLookup r) ∧
    (∀ r ∈ specReachableRefs gv,
      ∃ l ∈ (parseRelationshipLookups api gv).map Prod.snd,
        api.endpoint l = api.endpoint (dataToLookup r)) := by
  have hkeys : (parseRelationshipLookups api gv).map
      (fun p => api.endpoint p.2) =
      (parseRelationshipLookups api gv).map Prod.fst := by
    refine List.map_congr_left (fun p hp => ?_)
    obtain ⟨r, _, hpr⟩ := parse_sound api _ p hp
    rw [hpr]
    rfl
  refine ⟨?_, ?_, ?_⟩
  · rw [List.map_map]
    show ((parseRelationshipLookups api gv).map
      (fun p => api.endpoint p.2)).Nodup
    rw [hkeys]
    exact parse_nodup api _
  · intro l hl
    obtain ⟨p, hp, hpl⟩ := List.mem_map.mp hl
    obtain ⟨r, hr, hpr⟩ := parse_sound api _ p hp
    refine ⟨r, hr, ?_⟩
    rw [← hpl, hpr]
    rfl
  · intro r hr
    have h1 := parse_complete api _ r hr
    obtain ⟨p, hp, hp1⟩ := List.mem_map.mp h1
    obtain ⟨r2, _, hpr2⟩ := parse_sound api _ p hp
    refine ⟨p.2, List.mem_map.mpr ⟨p, hp, rfl⟩, ?_⟩
    have hpe : p.1 = api.endpoint p.2 := by rw [hpr2]; rfl
    rw [← hpe, hp1]

/-! ## C4: the extraction, corrected for its reachable TypeErrors -/

/-- An endpoint that depends only on the type parts, so the two distinct
references below share it. -/
def c4api : Api := ⟨fun l => l.entity ++ "--" ++ l.bundle, fun _ => false⟩

def c4ref1 : JVal := .obj [("type", .str "node--article"), ("id", .str "u1")]

def c4ref2 : JVal := .obj [("type", .str "node--article"), ("id", .str "u2")]

/-- Two same-endpoint references, one nested an object level deeper. -/
def c4input : JVal := .arr [c4ref1, .obj [("data", c4ref2)]]

/-- A nested structure containing `{type: 5, id: 1}` — plain JSON that the
default transform keeps: the relationship predicate evaluates
`(5).indexOf('--')` and throws. -/
def c4badInput : JVal := .arr [.obj [("type", .num 5), ("id", .num 1)]]

/-- C4 counterexample: the claim quantifies over every nested input
structure, but on `c4badInput` the real `parseRelationshipLookups` throws
a `TypeError` instead of returning a mapping. -/
theorem C4_parse_throws_on_non_string_type :
    parseRelationshipLookupsE c4api c4badInput =
      .error "TypeError: i.type.indexOf is not a function" := rfl

/-- C4, amended: on every nested input structure on which
`parseRelationshipLookups` returns (does not throw), it collects exactly
the relationship references reachable by descending through nested objects
(over their values) and arrays (over their elements), stopping at any
value satisfying the relationship predicate; the result is keyed by the
collaborator's canonical endpoint string with no repeated key, so two
references sharing an endpoint yield a single entry. -/
theorem C4_parse_relationship_lookups_amended (api : Api) (v : JVal)
    (m : List (String × Lookup))
    (h : parseRelationshipLookupsE api v = .ok m) :
    (m.map Prod.fst).Nodup ∧
    (∀ p ∈ m, p.1 = api.endpoint p.2 ∧
      ∃ r ∈ specReachableRefs v, p.2 = dataToLookup r) ∧
    (∀ r ∈ specReachableRefs v,
      api.endpoint (dataToLookup r) ∈ m.map Prod.fst) := by
  have hag := parseE_agrees api v m h
  rw [← hag]
  refine ⟨parse_nodup api v, ?_, parse_complete api v⟩
  intro p hp
  obtain ⟨r, hr, hpr⟩ := parse_sound api v p hp
  exact ⟨by rw [hpr]; rfl, r, hr, by rw [hpr]; rfl⟩

theorem C4_parse_relationship_lookups_amended_witness :
    parseRelationshipLookupsE c4api c4input =
      .ok [("node--article", ⟨"node", "article", .str "u2"⟩)] ∧
    (([("node--article",
        (⟨"node", "article", .str "u2"⟩ : Lookup))].map Prod.fst).Nodup ∧
      (∀ p ∈ [("node--article",
          (⟨"node", "article", .str "u2"⟩ : Lookup))],
        p.1 = c4api.endpoint p.2 ∧
        ∃ r ∈ specReachableRefs c4input, p.2 = dataToLookup r) ∧
      (∀ r ∈ specReachableRefs c4input,
        c4api.endpoint (dataToLookup r) ∈
          ([("node--article",
            (⟨"node", "article", .str "u2"⟩ : Lookup))].map Prod.fst))) :=
  ⟨rfl, C4_parse_relationship_lookups_amended c4api c4input
    [("node--article", ⟨"node", "article", .str "u2"⟩)] rfl⟩

/-! ## C3: loadRelationships, corrected for its reachable TypeErrors -/

/-- A traversal collaborator marking every `media` lookup as visited. -/
def c3api : Api :=
  ⟨fun l => l.entity ++ "--" ++ l.bundle, fun l => l.entity = "media"⟩

/-- An entity with two relationship fields, one already traversed. -/
def c3entity : Entity :=
  Entity.mk (.obj [("data", .obj [
    ("type", .str "node--page"), ("id", .str "9"),
    ("attributes", .obj []),
    ("relationships", .obj [
      ("field_a", .obj [("data",
        .obj [("type", .str "node--article"), ("id", .str "u1")])]),
      ("field_b", .obj [("data",
        .obj [("type", .str "media--image"), ("id", .str "u2")])])])])])

/-- A payload whose relationship field holds `{type: 5, id: 1}`; the
default transform keeps it verbatim. -/
def c3badPayload : JVal :=
  .obj [("data", .obj [
    ("type", .str "node--page"), ("id", .str "9"),
    ("attributes", .obj []),
    ("relationships", .obj [
      ("field_a", .obj [("data",
        .obj [("type", .num 5), ("id", .num 1)])])])])]

/-- C3 counterexample: a constructible (default-configuration) entity on
which the real `loadRelationships` rejects with a `TypeError` from the
relationship predicate instead of issuing requests and completing. -/
theorem C3_load_relationships_throws :
    ∃ e, mkEntity c3badPayload = .ok e ∧ e.isCollection = false ∧
      Entity.loadRelationshipsE c3api e 0 =
        .error "TypeError: i.type.indexOf is not a function" :=
  ⟨Entity.mk c3badPayload, rfl, rfl, rfl⟩

/-- C3, amended: for every non-collection entity and depth at which
`loadRelationships` returns (its extraction does not throw), the requests
are those of the single relationship group: none when the group container
is falsy; otherwise exactly one `getEntity` request at `depth + 1` per
extracted lookup not reported as traversed, where the extracted lookups
are exactly the reachable relationship references of the group's field
values, one per canonical endpoint.  `Promise.all` joins exactly the
issued requests. -/
theorem C3_load_relationships_amended (api : Api) (e : Entity)
    (depth : Nat) (hcol : e.isCollection = false)
    (reqs : List (Lookup × Nat))
    (hok : Entity.loadRelationshipsE api e depth = .ok reqs) :
    ((e.data.get "relationships").truthy = false → reqs = []) ∧
    ((e.data.get "relationships").truthy = true →
      ∃ lks, Entity.groupLookupsE api e "relationships" = .ok lks ∧
        reqs = (lks.filter (fun l => ¬ api.hasBeenTraversed l)).map
          (fun l => (l, depth + 1)) ∧
        (lks.map api.endpoint).Nodup ∧
        (∀ l ∈ lks,
          ∃ r ∈ specReachableRefs (e.groupFieldValues "relationships"),
            l = dataToLookup r) ∧
        (∀ r ∈ specReachableRefs (e.groupFieldValues "relationships"),
          ∃ l ∈ lks, api.endpoint l = api.endpoint (dataToLookup r))) := by
  have hok2 : ((Entity.loadRelationshipGroupE api e "relationships" depth >>=
      fun r => pure ([] ++ r)) >>= pure : Except String _) = .ok reqs := hok
  cases hg : Entity.loadRelationshipGroupE api e "relationships" depth with
  | error m2 =>
    rw [hg, except_bind_error, except_bind_error] at hok2
    exact absurd hok2 (Except.noConfusion)
  | ok r =>
    rw [hg, except_bind_ok] at hok2
    have hreq : reqs = r := by
      have h3 : (Except.ok ([] ++ r) : Except String _) = .ok reqs := hok2
      rw [← Except.ok.inj h3, List.nil_append]
    constructor
    · intro ht
      unfold Entity.loadRelationshipGroupE at hg
      rw [if_neg (by simp [ht])] at hg
      have h4 : (Except.ok ([] : List (Lookup × Nat)) : Except String _)
        = .ok r := hg
      rw [hreq, ← Except.ok.inj h4]
    · intro ht
      unfold Entity.loadRelationshipGroupE at hg
      rw [if_pos (by simp [hcol, ht])] at hg
      cases hl : Entity.groupLookupsE api e "relationships" with
      | error m2 =>
        rw [hl, except_bind_error] at hg
        exact absurd hg (Except.noConfusion)
      | ok lks =>
        rw [hl, except_bind_ok] at hg
        have h5 : (Except.ok ((lks.filter
            (fun l => ¬ api.hasBeenTraversed l)).map
            (fun l => (l, depth + 1))) : Except String _) = .ok r := hg
        obtain ⟨pm, hpm, hlks⟩ : ∃ pm,
            parseRelationshipLookupsE api
              (e.groupFieldValues "relationships") = .ok pm ∧
            lks = pm.map Prod.snd := by
          unfold Entity.groupLookupsE at hl
          cases hp : parseRelationshipLookupsE api
              (e.groupFieldValues "relationships") with
          | error m3 =>
            rw [hp] at hl
            exact absurd hl (Except.noConfusion)
          | ok pm =>
            rw [hp] at hl
            have h6 : (Except.ok (pm.map Prod.snd) : Except String _)
              = .ok lks := hl
            exact ⟨pm, rfl, (Except.ok.inj h6).symm⟩
        have hag : parseRelationshipLookups api
            (e.groupFieldValues "relationships") = pm :=
          parseE_agrees api _ pm hpm
        refine ⟨lks, rfl, ?_, ?_, ?_, ?_⟩
        · rw [hreq, ← Except.ok.inj h5]
        · rw [hlks, ← hag]
          exact (groupLookups_spec api _).1
        · rw [hlks, ← hag]
          exact (groupLookups_spec api _).2.1
        · rw [hlks, ← hag]
          exact (groupLookups_spec api _).2.2

theorem C3_load_relationships_amended_witness :
    (c3entity.data.get "relationships").truthy = true ∧
    Entity.loadRelationshipsE c3api c3entity 5 =
      .ok [(⟨"node", "article", .str "u1"⟩, 6)] ∧
    (∃ lks, Entity.groupLookupsE c3api c3entity "relationships" = .ok lks ∧
      [((⟨"node", "article", .str "u1"⟩ : Lookup), 6)] =
        (lks.filter (fun l => ¬ c3api.hasBeenTraversed l)).map
          (fun l => (l, 5 + 1)) ∧
      (lks.map c3api.endpoint).Nodup ∧
      (∀ l ∈ lks,
        ∃ r ∈ specReachableRefs (c3entity.groupFieldValues "relationships"),
          l = dataToLookup r) ∧
      (∀ r ∈ specReachableRefs (c3entity.groupFieldValues "relationships"),
        ∃ l ∈ lks, c3api.endpoint l = c3api.endpoint (dataToLookup r))) :=
  ⟨rfl, rfl,
    (C3_load_relationships_amended c3api c3entity 5 rfl
      [(⟨"node", "article", .str "u1"⟩, 6)] rfl).2 rfl⟩

/-! ## Lemmas about `jsSetL`, key filters and the `cleanFields` build -/

theorem jsGetL_jsSetL_same (fs : List (String × JVal)) (k : String)
    (v : JVal) : jsGetL (jsSetL fs k v) k = v := by
  unfold jsSetL
  split
  · rename_i hany
    induction fs with
    | nil => simp at hany
    | cons p rest ih =>
      by_cases hpk : p.1 = k
      · rw [List.map_cons, if_pos hpk, jsGetL]
        simp
      · rw [List.map_cons, if_neg hpk, jsGetL, if_neg hpk]
        refine ih ?_
        rcases List.any_eq_true.mp hany with ⟨q, hq, hqk⟩
        rcases List.mem_cons.mp hq with rfl | hq2
        · exact absurd (of_decide_eq_true hqk) hpk
        · exact List.any_eq_true.mpr ⟨q, hq2, hqk⟩
  · rename_i hany
    induction fs with
    | nil => simp [jsGetL]
    | cons p rest ih =>
      rw [List.cons_append, jsGetL]
      have hpk : ¬ p.1 = k := by
        intro hpk
        exact hany (List.any_eq_true.mpr ⟨p, List.mem_cons_self _ _,
          decide_eq_true hpk⟩)
      rw [if_neg hpk]
      exact ih (fun hany2 => hany (by
        obtain ⟨q, hq, hqk⟩ := List.any_eq_true.mp hany2
        exact List.any_eq_true.mpr ⟨q, List.mem_cons_of_mem _ hq, hqk⟩))

theorem jsGetL_jsSetL_other (fs : List (String × JVal)) (k k2 : String)
    (v : JVal) (hk : ¬ k2 = k) :
    jsGetL (jsSetL fs k v) k2 = jsGetL fs k2 := by
  unfold jsSetL
  split
  · rename_i hany
    clear hany
    induction fs with
    | nil => simp
    | cons p rest ih =>
      rw [List.map_cons]
      by_cases hpk : p.1 = k
      · rw [if_pos hpk, jsGetL, jsGetL]
        rw [if_neg (fun h => hk h.symm)]
        rw [if_neg (fun (h : p.1 = k2) => hk (h ▸ hpk))]
        exact ih
      · rw [if_neg hpk, jsGetL, jsGetL]
        by_cases hp2 : p.1 = k2
        · rw [if_pos hp2, if_pos hp2]
        · rw [if_neg hp2, if_neg hp2]
          exact ih
  · rename_i hany
    clear hany
    induction fs with
    | nil =>
      rw [List.nil_append, jsGetL, jsGetL]
      rw [if_neg (fun h => hk h.symm)]
      rfl
    | cons p rest ih =>
      rw [List.cons_append, jsGetL, jsGetL]
      by_cases hp2 : p.1 = k2
      · rw [if_pos hp2, if_pos hp2]
      · rw [if_neg hp2, if_neg hp2]
        exact ih

theorem mem_jsSetL {fs : List (String × JVal)} {k : String} {v : JVal}
    {p : String × JVal} (hp : p ∈ jsSetL fs k v) : p = (k, v) ∨ p ∈ fs := by
  unfold jsSetL at hp
  split at hp
  · obtain ⟨q, hq, hqp⟩ := List.mem_map.mp hp
    by_cases hqk : q.1 = k
    · rw [if_pos hqk] at hqp
      exact Or.inl hqp.symm
    · rw [if_neg hqk] at hqp
      exact Or.inr (hqp ▸ hq)
  · rcases List.mem_append.mp hp with h | h
    · exact Or.inr h
    · exact Or.inl (List.mem_singleton.mp h)

theorem jsSetL_entry_val {fs : List (String × JVal)} {k : String} {v : JVal}
    {p : String × JVal} (hp : p ∈ jsSetL fs k v) (hk : p.1 = k) :
    p.2 = v := by
  unfold jsSetL at hp
  split at hp
  · obtain ⟨q, hq, hqp⟩ := List.mem_map.mp hp
    by_cases hqk : q.1 = k
    · rw [if_pos hqk] at hqp
      rw [← hqp]
    · rw [if_neg hqk] at hqp
      exact absurd (hqp ▸ hk) hqk
  · rename_i hany
    rcases List.mem_append.mp hp with h | h
    · exact absurd (List.any_eq_true.mpr ⟨p, h, decide_eq_true hk⟩) hany
    · rw [List.mem_singleton.mp h]

theorem keys_jsSetL (fs : List (String × JVal)) (k : String) (v : JVal) :
    (jsSetL fs k v).map Prod.fst =
      if fs.any (fun p => p.1 = k) then fs.map Prod.fst
      else fs.map Prod.fst ++ [k] := by
  unfold jsSetL
  split
  · rw [List.map_map]
    refine List.map_congr_left (fun q _ => ?_)
    by_cases hqk : q.1 = k
    · simp [hqk]
    · simp [hqk]
  · simp

theorem nodup_keys_jsSetL {fs : List (String × JVal)} {k : String}
    {v : JVal} (h : (fs.map Prod.fst).Nodup) :
    ((jsSetL fs k v).map Prod.fst).Nodup := by
  rw [keys_jsSetL]
  split
  · exact h
  · rename_i hany
    rw [List.nodup_append]
    refine ⟨h, List.nodup_singleton k, fun a ha hb => ?_⟩
    rw [List.mem_singleton] at hb
    subst hb
    obtain ⟨q, hq, hqk⟩ := List.mem_map.mp ha
    exact hany (List.any_eq_true.mpr ⟨q, hq, decide_eq_true hqk⟩)

theorem jsSetL_self {fs : List (String × JVal)} {k : String} {v : JVal}
    (hany : fs.any (fun p => p.1 = k) = true)
    (hval : ∀ p ∈ fs, p.1 = k → p.2 = v) :
    jsSetL fs k v = fs := by
  unfold jsSetL
  rw [if_pos hany]
  have hmap : fs.map (fun p => if p.1 = k then (k, v) else p) = fs.map id := by
    refine List.map_congr_left (fun p hp => ?_)
    by_cases hpk : p.1 = k
    · rw [if_pos hpk]
      have hv := hval p hp hpk
      obtain ⟨a, b⟩ := p
      simp only at hpk hv
      rw [hpk, hv]
      rfl
    · rw [if_neg hpk]
      rfl
  rw [hmap, List.map_id]

theorem filter_key_eq_self {fs : List (String × JVal)} {k : String}
    (h : ∀ p ∈ fs, ¬ p.1 = k) :
    fs.filter (fun p => ¬ p.1 = k) = fs :=
  List.filter_eq_self.mpr (fun p hp => decide_eq_true (h p hp))

theorem not_key_of_mem_filter {fs : List (String × JVal)} {k : String}
    {p : String × JVal} (hp : p ∈ fs.filter (fun q => ¬ q.1 = k)) :
    ¬ p.1 = k :=
  of_decide_eq_true (List.mem_filter.mp hp).2

theorem jsGetL_filter_key (fs : List (String × JVal)) (k : String) :
    jsGetL (fs.filter (fun p => ¬ p.1 = k)) k = .undefined := by
  induction fs with
  | nil => simp [jsGetL]
  | cons p rest ih =>
    rw [List.filter_cons]
    split
    · rename_i hp
      rw [jsGetL]
      rw [if_neg (of_decide_eq_true hp)]
      exact ih
    · exact ih

theorem dedupFirst_nodup (l : List String) : (dedupFirst l).Nodup := by
  induction l with
  | nil => exact List.nodup_nil
  | cons x xs ih =>
    rw [dedupFirst]
    refine List.Nodup.cons ?_ (List.Nodup.filter _ ih)
    intro hx
    exact absurd (List.of_mem_filter hx) (by simp)

theorem dedupFirst_eq_self {l : List String} (h : l.Nodup) :
    dedupFirst l = l := by
  induction l with
  | nil => rfl
  | cons x xs ih =>
    rw [dedupFirst]
    rw [ih (List.Nodup.of_cons h)]
    rw [List.filter_eq_self.mpr]
    intro a ha
    have hx : ¬ x ∈ xs := (List.nodup_cons.mp h).1
    exact decide_eq_true (fun hax => hx (hax ▸ ha))

/-! ## Idempotence of `cleanField` and `cleanFields` -/

theorem cleanField_arr (xs : List JVal) :
    cleanField (.arr xs) = .arr (cleanFieldList xs) := by
  rw [cleanField]

theorem cleanField_obj (fs : List (String × JVal)) :
    cleanField (.obj fs) =
      .obj (if ((jsGetL fs "links").truthy &&
              ((jsGetL fs "links").get "self").truthy) = true then
          (cleanDataEntries fs).filter (fun p => ¬ p.1 = "links")
        else cleanDataEntries fs) := by
  rw [cleanField]

/-- The value transformation applied to a `data` member. -/
def cleanDataValue : JVal → JVal
  | .arr ds => .arr (cleanFieldList ds)
  | other => other

theorem cleanDataEntries_cons (k : String) (v : JVal)
    (rest : List (String × JVal)) :
    cleanDataEntries ((k, v) :: rest) =
      (k, if k = "data" then cleanDataValue v else v) ::
        cleanDataEntries rest := by
  cases v <;> rfl

theorem jsGetL_cleanDataEntries (fs : List (String × JVal)) (k : String)
    (hk : ¬ k = "data") :
    jsGetL (cleanDataEntries fs) k = jsGetL fs k := by
  induction fs with
  | nil => rfl
  | cons p rest ih =>
    obtain ⟨k1, v⟩ := p
    rw [cleanDataEntries_cons, jsGetL, jsGetL]
    by_cases h1 : k1 = k
    · rw [if_pos h1, if_pos h1]
      rw [if_neg (fun (h : k1 = "data") => hk (h1 ▸ h))]
    · rw [if_neg h1, if_neg h1]
      exact ih

theorem cleanDataEntries_filter_comm (fs : List (String × JVal))
    (k : String) :
    cleanDataEntries (fs.filter (fun p => ¬ p.1 = k)) =
      (cleanDataEntries fs).filter (fun p => ¬ p.1 = k) := by
  induction fs with
  | nil => rfl
  | cons p rest ih =>
    obtain ⟨k1, v⟩ := p
    by_cases h1 : k1 = k
    · rw [List.filter_cons_of_neg (by simpa using h1)]
      rw [cleanDataEntries_cons]
      rw [List.filter_cons_of_neg (by simpa using h1)]
      exact ih
    · rw [List.filter_cons_of_pos (by simpa using h1)]
      rw [cleanDataEntries_cons, cleanDataEntries_cons]
      rw [List.filter_cons_of_pos (by simpa using h1)]
      rw [ih]

theorem cleanDataEntries_idem (fs : List (String × JVal))
    (IH : ∀ p ∈ fs, cleanField (cleanField p.2) = cleanField p.2) :
    cleanDataEntries (cleanDataEntries fs) = cleanDataEntries fs := by
  induction fs with
  | nil => rfl
  | cons p rest ih =>
    obtain ⟨k1, v⟩ := p
    rw [cleanDataEntries_cons, cleanDataEntries_cons]
    rw [ih (fun q hq => IH q (List.mem_cons_of_mem _ hq))]
    by_cases h1 : k1 = "data"
    · rw [if_pos h1, if_pos h1]
      cases v with
      | arr ds =>
        have h2 := IH (k1, .arr ds) (List.mem_cons_self _ _)
        rw [cleanField_arr, cleanField_arr] at h2
        have h3 : cleanFieldList (cleanFieldList ds) = cleanFieldList ds :=
          JVal.arr.inj h2
        rw [show cleanDataValue (.arr ds) = .arr (cleanFieldList ds) from rfl]
        rw [show cleanDataValue (.arr (cleanFieldList ds)) =
          .arr (cleanFieldList (cleanFieldList ds)) from rfl]
        rw [h3]
      | undefined => rfl
      | null => rfl
      | bool b => rfl
      | num n => rfl
      | str s => rfl
      | obj gs => rfl
    · rw [if_neg h1, if_neg h1]

theorem cleanFieldList_idem (xs : List JVal)
    (IH : ∀ x ∈ xs, cleanField (cleanField x) = cleanField x) :
    cleanFieldList (cleanFieldList xs) = cleanFieldList xs := by
  induction xs with
  | nil => rfl
  | cons x rest ih =>
    rw [cleanFieldList, cleanFieldList]
    rw [IH x (List.mem_cons_self _ _)]
    rw [ih (fun y hy => IH y (List.mem_cons_of_mem _ hy))]

theorem cleanField_idem (v : JVal) :
    cleanField (cleanField v) = cleanField v := by
  induction v using JVal.myInduction with
  | hundefined => rfl
  | hnull => rfl
  | hbool b => rfl
  | hnum n => rfl
  | hstr s => rfl
  | harr xs IH =>
    rw [cleanField_arr, cleanField_arr, cleanFieldList_idem xs IH]
  | hobj fs IH =>
    rw [cleanField_obj fs]
    by_cases hdrop : ((jsGetL fs "links").truthy &&
        ((jsGetL fs "links").get "self").truthy) = true
    · rw [if_pos hdrop, cleanField_obj]
      rw [jsGetL_filter_key]
      rw [if_neg (by decide)]
      rw [cleanDataEntries_filter_comm, cleanDataEntries_idem fs IH]
    · rw [if_neg hdrop, cleanField_obj]
      rw [jsGetL_cleanDataEntries fs "links" (by decide)]
      rw [if_neg hdrop]
      rw [cleanDataEntries_idem fs IH]

theorem foldl_jsSetL_nodup (g : String → JVal) (ks : List String) :
    ∀ acc : List (String × JVal), (acc.map Prod.fst).Nodup →
      ((ks.foldl (fun acc k => jsSetL acc k (g k)) acc).map Prod.fst).Nodup := by
  induction ks with
  | nil => intro acc h; exact h
  | cons k rest ih =>
    intro acc h
    rw [List.foldl_cons]
    exact ih _ (nodup_keys_jsSetL h)

theorem foldl_jsSetL_mem (g : String → JVal) (ks : List String) :
    ∀ acc (p : String × JVal),
      p ∈ ks.foldl (fun acc k => jsSetL acc k (g k)) acc →
      p ∈ acc ∨ ∃ k ∈ ks, p = (k, g k) := by
  induction ks with
  | nil => intro acc p hp; exact Or.inl hp
  | cons k rest ih =>
    intro acc p hp
    rw [List.foldl_cons] at hp
    rcases ih _ p hp with h | ⟨k2, hk2, hp2⟩
    · rcases mem_jsSetL h with h2 | h2
      · exact Or.inr ⟨k, List.mem_cons_self _ _, h2⟩
      · exact Or.inl h2
    · exact Or.inr ⟨k2, List.mem_cons_of_mem _ hk2, hp2⟩

theorem foldl_jsSetL_eq_append (g : String → JVal) (ks : List String) :
    ∀ acc, ks.Nodup →
      (∀ k ∈ ks, acc.any (fun p => p.1 = k) = false) →
      ks.foldl (fun acc k => jsSetL acc k (g k)) acc =
        acc ++ ks.map (fun k => (k, g k)) := by
  induction ks with
  | nil => intro acc _ _; simp
  | cons k rest ih =>
    intro acc hnd hdisj
    rw [List.foldl_cons]
    have hset : jsSetL acc k (g k) = acc ++ [(k, g k)] := by
      unfold jsSetL
      rw [hdisj k (List.mem_cons_self _ _)]
      simp
    rw [hset]
    rw [ih _ (List.nodup_cons.mp hnd).2 ?_]
    · simp
    · intro k2 hk2
      rw [List.any_append]
      rw [hdisj k2 (List.mem_cons_of_mem _ hk2)]
      have hkk2 : ¬ k = k2 :=
        fun h => (List.nodup_cons.mp hnd).1 (h ▸ hk2)
      simp [hkk2]

theorem jsGetL_of_mem_nodup {fs : List (String × JVal)}
    (h : (fs.map Prod.fst).Nodup) {p : String × JVal} (hp : p ∈ fs) :
    jsGetL fs p.1 = p.2 := by
  induction fs with
  | nil => cases hp
  | cons q rest ih =>
    rw [jsGetL]
    rcases List.mem_cons.mp hp with rfl | hp2
    · rw [if_pos rfl]
    · by_cases hq : q.1 = p.1
      · exfalso
        have hm : p.1 ∈ rest.map Prod.fst := List.mem_map.mpr ⟨p, hp2, rfl⟩
        rw [← hq] at hm
        rw [List.map_cons] at h
        exact (List.nodup_cons.mp h).1 hm
      · rw [if_neg hq]
        rw [List.map_cons] at h
        exact ih (List.nodup_cons.mp h).2 hp2

/-! ## Inversion and fixed-point lemmas for `transform` -/

theorem jsGetL_undef_of_no_key {fs : List (String × JVal)} {k : String}
    (h : ∀ p ∈ fs, ¬ p.1 = k) : jsGetL fs k = .undefined := by
  induction fs with
  | nil => rfl
  | cons p rest ih =>
    rw [jsGetL, if_neg (h p (List.mem_cons_self _ _))]
    exact ih (fun q hq => h q (List.mem_cons_of_mem _ hq))

theorem any_key_of_jsSetL (fs : List (String × JVal)) (k : String)
    (v : JVal) : (jsSetL fs k v).any (fun p => p.1 = k) = true := by
  unfold jsSetL
  split
  · rename_i hany
    obtain ⟨q, hq, hqk⟩ := List.any_eq_true.mp hany
    refine List.any_eq_true.mpr ⟨(k, v), ?_, by simp⟩
    refine List.mem_map.mpr ⟨q, hq, ?_⟩
    rw [if_pos (of_decide_eq_true hqk)]
  · exact List.any_eq_true.mpr ⟨(k, v),
      List.mem_append.mpr (Or.inr (List.mem_singleton.mpr rfl)), by simp⟩

theorem any_key_jsSetL_mono {fs : List (String × JVal)} {k k2 : String}
    {v : JVal} (h : fs.any (fun p => p.1 = k2) = true) (hk : ¬ k2 = k) :
    (jsSetL fs k v).any (fun p => p.1 = k2) = true := by
  obtain ⟨q, hq, hqk⟩ := List.any_eq_true.mp h
  have hqk2 : q.1 = k2 := of_decide_eq_true hqk
  unfold jsSetL
  split
  · refine List.any_eq_true.mpr ⟨q, ?_, hqk⟩
    refine List.mem_map.mpr ⟨q, hq, ?_⟩
    rw [if_neg (fun (h2 : q.1 = k) => hk (hqk2 ▸ h2))]
  · exact List.any_eq_true.mpr ⟨q, List.mem_append.mpr (Or.inl hq), hqk⟩

theorem assignIntoData_ok {res : JVal} {k : String} {v out : JVal}
    (h : assignIntoData res k v = .ok out) :
    ∃ dfs, res.get "data" = .obj dfs ∧
      out = res.set "data" (.obj (jsSetL dfs k v)) := by
  unfold assignIntoData at h
  cases hd : res.get "data" with
  | obj dfs =>
    rw [hd] at h
    exact ⟨dfs, rfl, (Except.ok.inj h).symm⟩
  | undefined => rw [hd] at h; exact Except.noConfusion h
  | null => rw [hd] at h; exact Except.noConfusion h
  | bool b => rw [hd] at h; exact Except.noConfusion h
  | num n => rw [hd] at h; exact Except.noConfusion h
  | str s => rw [hd] at h; exact Except.noConfusion h
  | arr xs => rw [hd] at h; exact Except.noConfusion h

theorem obj_of_get_obj {res : JVal} {k : String}
    {dfs : List (String × JVal)} (h : res.get k = .obj dfs) :
    ∃ rfs, res = .obj rfs := by
  cases res with
  | obj rfs => exact ⟨rfs, rfl⟩
  | undefined => exact JVal.noConfusion h
  | null => exact JVal.noConfusion h
  | bool b => exact JVal.noConfusion h
  | num n => exact JVal.noConfusion h
  | str s => exact JVal.noConfusion h
  | arr xs => exact JVal.noConfusion h

theorem jsDeleteE_ok {v : JVal} {k : String} {r : JVal}
    (h : jsDeleteE v k = .ok r) : r = jsDeleteT v k := by
  unfold jsDeleteE at h
  cases v with
  | undefined => exact Except.noConfusion h
  | null => exact Except.noConfusion h
  | bool b => exact (Except.ok.inj h).symm
  | num n => exact (Except.ok.inj h).symm
  | str s => exact (Except.ok.inj h).symm
  | arr xs => exact (Except.ok.inj h).symm
  | obj fs => exact (Except.ok.inj h).symm

theorem jsDeleteT_obj {v : JVal} {k : String} {fs2 : List (String × JVal)}
    (h : jsDeleteT v k = .obj fs2) :
    ∃ fs1, v = .obj fs1 ∧ ∀ p ∈ fs2, ¬ p.1 = k ∧ p ∈ fs1 := by
  cases v with
  | obj fs1 =>
    refine ⟨fs1, rfl, fun p hp => ?_⟩
    have h2 : fs2 = fs1.filter (fun p => ¬ p.1 = k) :=
      (JVal.obj.inj h).symm
    rw [h2] at hp
    exact ⟨not_key_of_mem_filter hp, (List.mem_filter.mp hp).1⟩
  | undefined => exact JVal.noConfusion h
  | null => exact JVal.noConfusion h
  | bool b => exact JVal.noConfusion h
  | num n => exact JVal.noConfusion h
  | str s => exact JVal.noConfusion h
  | arr xs => exact JVal.noConfusion h

theorem transformStep3_obj {r2 : JVal} {tfs : List (String × JVal)}
    (h : transformStep3 r2 = .obj tfs) :
    ∃ r2fs, r2 = .obj r2fs ∧ ∀ p ∈ tfs, p.1 = "data" ∨ p ∈ r2fs := by
  unfold transformStep3 at h
  split at h
  · cases r2 with
    | obj r2fs =>
      refine ⟨r2fs, rfl, fun p hp => ?_⟩
      have h2 : tfs = jsSetL r2fs "data"
          (jsDeleteT ((JVal.obj r2fs).get "data") "links") :=
        (JVal.obj.inj h).symm
      rw [h2] at hp
      rcases mem_jsSetL hp with h3 | h3
      · exact Or.inl (by rw [h3])
      · exact Or.inr h3
    | undefined => exact JVal.noConfusion h
    | null => exact JVal.noConfusion h
    | bool b => exact JVal.noConfusion h
    | num n => exact JVal.noConfusion h
    | str s => exact JVal.noConfusion h
    | arr xs => exact JVal.noConfusion h
  · exact ⟨tfs, h, fun p hp => Or.inr hp⟩

theorem transformStep3_data_links {r2 : JVal} {dfs : List (String × JVal)}
    (h : (transformStep3 r2).get "data" = .obj dfs) :
    (jsGetL dfs "links").truthy = false := by
  unfold transformStep3 at h
  split at h
  · cases r2 with
    | obj r2fs =>
      have h2 : (JVal.obj r2fs).set "data"
          (jsDeleteT ((JVal.obj r2fs).get "data") "links") =
          .obj (jsSetL r2fs "data"
            (jsDeleteT (jsGetL r2fs "data") "links")) := rfl
      rw [h2] at h
      have h3 : (JVal.obj (jsSetL r2fs "data"
          (jsDeleteT (jsGetL r2fs "data") "links"))).get "data" =
          jsDeleteT (jsGetL r2fs "data") "links" := by
        show jsGetL (jsSetL r2fs "data" _) "data" = _
        exact jsGetL_jsSetL_same _ _ _
      rw [h3] at h
      obtain ⟨d0fs, hd0, hp⟩ := jsDeleteT_obj h
      rw [jsGetL_undef_of_no_key (fun p hp2 => (hp p hp2).1)]
      rfl
    | undefined => exact JVal.noConfusion h
    | null => exact JVal.noConfusion h
    | bool b => exact JVal.noConfusion h
    | num n => exact JVal.noConfusion h
    | str s => exact JVal.noConfusion h
    | arr xs => exact JVal.noConfusion h
  · rename_i hguard
    rw [h] at hguard
    simp only [JVal.truthy, Bool.true_and] at hguard
    have h4 : ((JVal.obj dfs).get "links").truthy = false :=
      Bool.not_eq_true _ ▸ eq_false_of_ne_true hguard
    exact h4

theorem cleanFields_ok_idem {fields y : JVal}
    (h : cleanFields fields = .ok y) : cleanFields y = .ok y := by
  unfold cleanFields at h
  cases hk : jsObjectKeysE fields with
  | error m =>
    rw [hk] at h
    exact Except.noConfusion h
  | ok ks =>
    rw [hk] at h
    have hy : y = .obj ((ks.filter cleanFieldTest).foldl
        (fun acc k => jsSetL acc k (cleanField (fields.get k))) []) :=
      (Except.ok.inj h).symm
    obtain ⟨cl, hcl⟩ : ∃ cl, (ks.filter cleanFieldTest).foldl
        (fun acc k => jsSetL acc k (cleanField (fields.get k))) [] = cl :=
      ⟨_, rfl⟩
    rw [hcl] at hy
    subst hy
    have hnd : (cl.map Prod.fst).Nodup := by
      rw [← hcl]
      exact foldl_jsSetL_nodup _ _ [] (by simp)
    have hentry : ∀ p ∈ cl, cleanFieldTest p.1 = true ∧
        p.2 = cleanField (fields.get p.1) := by
      intro p hp
      rw [← hcl] at hp
      rcases foldl_jsSetL_mem _ _ [] p hp with h0 | ⟨k, hkm, hpk⟩
      · cases h0
      · rw [hpk]
        exact ⟨(List.mem_filter.mp hkm).2, rfl⟩
    unfold cleanFields
    have hkeys : jsObjectKeysE (JVal.obj cl) = .ok (cl.map Prod.fst) := by
      show Except.ok (dedupFirst (cl.map Prod.fst)) = _
      rw [dedupFirst_eq_self hnd]
    rw [hkeys]
    show Except.ok (JVal.obj (((cl.map Prod.fst).filter cleanFieldTest).foldl
      (fun acc k => jsSetL acc k (cleanField ((JVal.obj cl).get k))) [])) =
      Except.ok (JVal.obj cl)
    have hfilter : (cl.map Prod.fst).filter cleanFieldTest =
        cl.map Prod.fst :=
      List.filter_eq_self.mpr (fun k hk2 => by
        obtain ⟨p, hp, hpk⟩ := List.mem_map.mp hk2
        rw [← hpk]
        exact (hentry p hp).1)
    rw [hfilter]
    rw [foldl_jsSetL_eq_append _ _ [] hnd (by simp)]
    rw [List.nil_append, List.map_map]
    have hid : cl.map
        ((fun k => (k, cleanField ((JVal.obj cl).get k))) ∘ Prod.fst) =
        cl.map id := by
      refine List.map_congr_left (fun p hp => ?_)
      show (p.1, cleanField ((JVal.obj cl).get p.1)) = id p
      have hg : (JVal.obj cl).get p.1 = p.2 := jsGetL_of_mem_nodup hnd hp
      rw [hg, (hentry p hp).2, cleanField_idem, ← (hentry p hp).2]
      rfl
    rw [hid, List.map_id]

theorem transform_fix (ofs X2 : List (String × JVal)) (ca cr : JVal)
    (hdata : jsGetL ofs "data" = .obj X2)
    (hdataAll : ∀ p ∈ ofs, p.1 = "data" → p.2 = .obj X2)
    (hdataMem : ofs.any (fun p => p.1 = "data") = true)
    (hclean : ∀ p ∈ ofs, ¬ p.1 = "jsonapi" ∧ ¬ p.1 = "links")
    (hlinks : (jsGetL X2 "links").truthy = false)
    (hattr : jsGetL X2 "attributes" = ca)
    (hattrAll : ∀ p ∈ X2, p.1 = "attributes" → p.2 = ca)
    (hattrMem : X2.any (fun p => p.1 = "attributes") = true)
    (hrel : jsGetL X2 "relationships" = cr)
    (hrelAll : ∀ p ∈ X2, p.1 = "relationships" → p.2 = cr)
    (hrelMem : X2.any (fun p => p.1 = "relationships") = true)
    (hca : cleanFields ca = .ok ca)
    (hcr : cleanFields cr = .ok cr) :
    transform (.obj ofs) = .ok (.obj ofs) := by
  unfold transform
  have h1 : jsDeleteE (.obj ofs) "jsonapi" = .ok (.obj ofs) := by
    show Except.ok (JVal.obj (ofs.filter (fun p => ¬ p.1 = "jsonapi"))) = _
    rw [filter_key_eq_self (fun p hp => (hclean p hp).1)]
  rw [h1, except_bind_ok]
  have h2 : jsDeleteE (.obj ofs) "links" = .ok (.obj ofs) := by
    show Except.ok (JVal.obj (ofs.filter (fun p => ¬ p.1 = "links"))) = _
    rw [filter_key_eq_self (fun p hp => (hclean p hp).2)]
  rw [h2, except_bind_ok]
  have hga : (JVal.obj ofs).get "data" = .obj X2 := hdata
  have h3 : transformStep3 (.obj ofs) = .obj ofs := by
    unfold transformStep3
    rw [hga]
    show (if ((JVal.obj X2).truthy && (jsGetL X2 "links").truthy) = true
      then _ else _) = _
    rw [hlinks]
    rw [if_neg (by simp)]
  rw [h3]
  unfold transformTail
  rw [hga]
  have h4 : jsIndexE (JVal.obj X2) "attributes" = .ok ca := by
    show Except.ok (jsGetL X2 "attributes") = _
    rw [hattr]
  rw [h4, except_bind_ok, hca, except_bind_ok]
  have h5 : assignIntoData (.obj ofs) "attributes" ca = .ok (.obj ofs) := by
    unfold assignIntoData
    rw [hga]
    show Except.ok ((JVal.obj ofs).set "data"
      (.obj (jsSetL X2 "attributes" ca))) = _
    rw [jsSetL_self hattrMem hattrAll]
    show Except.ok (JVal.obj (jsSetL ofs "data" (.obj X2))) = _
    rw [jsSetL_self hdataMem hdataAll]
  rw [h5, except_bind_ok]
  rw [hga]
  have h6 : jsIndexE (JVal.obj X2) "relationships" = .ok cr := by
    show Except.ok (jsGetL X2 "relationships") = _
    rw [hrel]
  rw [h6, except_bind_ok, hcr, except_bind_ok]
  unfold assignIntoData
  rw [hga]
  show Except.ok ((JVal.obj ofs).set "data"
    (.obj (jsSetL X2 "relationships" cr))) = _
  rw [jsSetL_self hrelMem hrelAll]
  show Except.ok (JVal.obj (jsSetL ofs "data" (.obj X2))) = _
  rw [jsSetL_self hdataMem hdataAll]

/-- C7: the default `transform` is idempotent — whenever it succeeds,
applying it again to its own output returns that output unchanged. -/
theorem C7_transform_idempotent (res out : JVal)
    (h : transform res = .ok out) : transform out = .ok out := by
  unfold transform at h
  cases h1 : jsDeleteE res "jsonapi" with
  | error m => rw [h1, except_bind_error] at h; exact Except.noConfusion h
  | ok r1 =>
  rw [h1, except_bind_ok] at h
  cases h2 : jsDeleteE r1 "links" with
  | error m => rw [h2, except_bind_error] at h; exact Except.noConfusion h
  | ok r2 =>
  rw [h2, except_bind_ok] at h
  unfold transformTail at h
  cases h3 : jsIndexE ((transformStep3 r2).get "data") "attributes" with
  | error m => rw [h3, except_bind_error] at h; exact Except.noConfusion h
  | ok a =>
  rw [h3, except_bind_ok] at h
  cases h4 : cleanFields a with
  | error m => rw [h4, except_bind_error] at h; exact Except.noConfusion h
  | ok ca =>
  rw [h4, except_bind_ok] at h
  cases h5 : assignIntoData (transformStep3 r2) "attributes" ca with
  | error m => rw [h5, except_bind_error] at h; exact Except.noConfusion h
  | ok r4 =>
  rw [h5, except_bind_ok] at h
  cases h6 : jsIndexE (r4.get "data") "relationships" with
  | error m => rw [h6, except_bind_error] at h; exact Except.noConfusion h
  | ok rel =>
  rw [h6, except_bind_ok] at h
  cases h7 : cleanFields rel with
  | error m => rw [h7, except_bind_error] at h; exact Except.noConfusion h
  | ok cr =>
  rw [h7, except_bind_ok] at h
  obtain ⟨dfs, hdfs, hr4⟩ := assignIntoData_ok h5
  obtain ⟨tfs, htfs⟩ := obj_of_get_obj hdfs
  obtain ⟨X1fs, hX1get, hout⟩ := assignIntoData_ok h
  rw [htfs] at hr4
  have hr4' : r4 = .obj (jsSetL tfs "data"
      (.obj (jsSetL dfs "attributes" ca))) := hr4
  have hr4d : r4.get "data" = .obj (jsSetL dfs "attributes" ca) := by
    rw [hr4']
    show jsGetL (jsSetL tfs "data" _) "data" = _
    exact jsGetL_jsSetL_same _ _ _
  rw [hr4d] at hX1get
  have hX1eq : X1fs = jsSetL dfs "attributes" ca := (JVal.obj.inj hX1get).symm
  subst hX1eq
  rw [hr4'] at hout
  have hout' : out = .obj (jsSetL
      (jsSetL tfs "data" (.obj (jsSetL dfs "attributes" ca))) "data"
      (.obj (jsSetL (jsSetL dfs "attributes" ca) "relationships" cr))) :=
    hout
  -- provenance of the top-level entries
  obtain ⟨r2fs, hr2obj, htp⟩ := transformStep3_obj htfs
  have hr2del : r2 = jsDeleteT r1 "links" := jsDeleteE_ok h2
  have hr1del : r1 = jsDeleteT res "jsonapi" := jsDeleteE_ok h1
  obtain ⟨r1fs, hr1obj, hr2p⟩ := jsDeleteT_obj (hr2del ▸ hr2obj : jsDeleteT r1 "links" = .obj r2fs)
  obtain ⟨resfs, _, hr1p⟩ := jsDeleteT_obj (hr1del ▸ hr1obj : jsDeleteT res "jsonapi" = .obj r1fs)
  rw [hout']
  refine transform_fix _ _ ca cr (jsGetL_jsSetL_same _ _ _)
    (fun p hp hk => jsSetL_entry_val hp hk)
    (any_key_of_jsSetL _ _ _) ?_ ?_ ?_ ?_ ?_ ?_ ?_ ?_
    (cleanFields_ok_idem h4) (cleanFields_ok_idem h7)
  · -- no jsonapi / links keys at top level
    intro p hp
    have hdd : p.1 = "data" → ¬ p.1 = "jsonapi" ∧ ¬ p.1 = "links" := by
      intro hd
      rw [hd]
      exact ⟨by decide, by decide⟩
    rcases mem_jsSetL hp with hp1 | hp1
    · exact hdd (by rw [hp1])
    rcases mem_jsSetL hp1 with hp2 | hp2
    · exact hdd (by rw [hp2])
    rcases htp p hp2 with hp3 | hp3
    · exact hdd hp3
    · have hnl : ¬ p.1 = "links" := (hr2p p hp3).1
      have hnj : ¬ p.1 = "jsonapi" := (hr1p p (hr2p p hp3).2).1
      exact ⟨hnj, hnl⟩
  · -- links member of the data object is falsy
    rw [jsGetL_jsSetL_other _ _ _ _ (by decide)]
    rw [jsGetL_jsSetL_other _ _ _ _ (by decide)]
    exact transformStep3_data_links hdfs
  · -- attributes value
    rw [jsGetL_jsSetL_other _ _ _ _ (by decide)]
    exact jsGetL_jsSetL_same _ _ _
  · -- all attributes entries carry ca
    intro p hp hk
    rcases mem_jsSetL hp with hp1 | hp1
    · exact absurd (show ("relationships" : String) = "attributes" by
        rw [← show p.1 = "relationships" by rw [hp1]]; exact hk) (by decide)
    · exact jsSetL_entry_val hp1 hk
  · -- attributes key present
    exact any_key_jsSetL_mono (any_key_of_jsSetL _ _ _) (by decide)
  · exact jsGetL_jsSetL_same _ _ _
  · intro p hp hk
    exact jsSetL_entry_val hp hk
  · exact any_key_of_jsSetL _ _ _

/-- The cleaned resource produced from the C1 scenario payload. -/
def c7out : JVal :=
  .obj [("data", .obj [
    ("type", .str "node--article"),
    ("id", .str "42"),
    ("attributes", .obj [("field_title", .str "Hello")]),
    ("relationships", .obj [])])]

theorem C7_transform_idempotent_witness :
    transform c1payload = .ok c7out ∧ transform c7out = .ok c7out :=
  ⟨rfl, C7_transform_idempotent c1payload c7out rfl⟩
